import Mathlib

/-!
Verification of the Events / storyboard subsystem of an osu! beatmap file
parser-serializer written in Rust.  The repository contains two generations
of the events code:

* `src/osu_file/events/mod.rs` — the `Events` section parser and the
  `Display`-based serializer (`Events::from_str`, `Events::to_string`,
  `EventParams::from_str`, `Event::fmt` including the explicit-stack command
  flattener).  These are embedded below under their source names.
* `src/osu_file/events/normal_event/mod.rs` — the versioned normal events
  (`Background`, `Video`, `Break`, `ColourTransformation`) with the legacy
  time-offset handling (`time_to_string`, offset constant 24 from
  `src/helper/mod.rs`).  These are embedded in the `NormalEvent` namespace.

Support files that are not part of the source snapshot (the storyboard
`sprites.rs` / `cmds.rs`, `normal_event/parsers.rs` and the per-module
`error.rs` files) are modelled from the specification; each such definition
carries a doc comment starting with `Modelled from the spec:`.

Machine integers: Rust `i32` / `u8` values are embedded as `Int` / `Nat`
with explicit range checks in the string codecs (Rust's `from_str` rejects
out-of-range input, and in-range values never overflow in this code).
-/

/-! ### Decimal digit codecs (Rust `{}` formatting and `from_str` parsing) -/

/-- Fuel-driven most-significant-first decimal digit printer; with fuel
greater than `n` it produces the digits of `n` followed by `acc`. -/
def natCharsGo : Nat → Nat → List Char → List Char
  | 0, _, acc => acc
  | fuel + 1, n, acc =>
    if n < 10 then Nat.digitChar (n % 10) :: acc
    else natCharsGo fuel (n / 10) (Nat.digitChar (n % 10) :: acc)

/-- Decimal representation of a natural number, as Rust `{}` prints it. -/
def charsOfNat (n : Nat) : List Char :=
  natCharsGo (n + 1) n []

/-- Decimal representation of an integer, as Rust `{}` prints an `i32`. -/
def charsOfInt (n : Int) : List Char :=
  if n < 0 then '-' :: charsOfNat n.natAbs else charsOfNat n.toNat

/-- Numeric value of a digit string (most significant digit first). -/
def digitsVal (l : List Char) : Nat :=
  l.foldl (fun a c => a * 10 + (c.toNat - 48)) 0

/-- Parse an unsigned decimal numeral: every character must be a digit and
the string must be non-empty.  Mirrors the digit phase of Rust's integer
`from_str` (sign and range handling live in the typed wrappers below). -/
def parseNat : List Char → Option Nat
  | [] => none
  | l => if l.all Char.isDigit then some (digitsVal l) else none

/-- Parse a Rust `i32`: optional `+`/`-` sign, digits, range check. -/
def parseI32 (l : List Char) : Option Int :=
  if l.head? = some '+' then
    (parseNat l.tail).bind fun n => if n ≤ 2 ^ 31 - 1 then some (n : Int) else none
  else if l.head? = some '-' then
    (parseNat l.tail).bind fun n => if n ≤ 2 ^ 31 then some (-(n : Int)) else none
  else
    (parseNat l).bind fun n => if n ≤ 2 ^ 31 - 1 then some (n : Int) else none

/-- Parse a Rust `u8`: optional `+` sign, digits, range check. -/
def parseU8 (l : List Char) : Option Nat :=
  if l.head? = some '+' then
    (parseNat l.tail).bind fun n => if n ≤ 255 then some n else none
  else
    (parseNat l).bind fun n => if n ≤ 255 then some n else none

/-- Range of a Rust `i32` value. -/
def i32Range (n : Int) : Prop :=
  -(2 ^ 31) ≤ n ∧ n < 2 ^ 31

instance (n : Int) : Decidable (i32Range n) := by
  unfold i32Range; infer_instance

/-! ### Comma-field splitting (the `comma_field` / `comma` nom parsers) -/

/-- Leading run of non-comma characters (`comma_field` in `src/parsers.rs`:
`take_while(|c| c != ',')`). -/
def takeField (l : List Char) : List Char :=
  l.takeWhile (· ≠ ',')

/-- Remainder after the leading non-comma run (what `comma_field` leaves). -/
def dropField (l : List Char) : List Char :=
  l.dropWhile (· ≠ ',')

/-- Consume one `,` (`comma` in `src/parsers.rs`: `tag(",")`); `none` means
the comma was missing. -/
def eatComma : List Char → Option (List Char)
  | ',' :: rest => some rest
  | _ => none

/-! ### Rust `str::lines` and newline joining -/

/-- Split on `\n`, keeping empty pieces; the result is always non-empty. -/
def splitOnNl : List Char → List (List Char)
  | [] => [[]]
  | c :: rest =>
    match splitOnNl rest with
    | [] => [[c]]
    | l :: ls => if c = '\n' then [] :: l :: ls else (c :: l) :: ls

/-- Strip a single trailing carriage return, as Rust `str::lines` does. -/
def stripCr (l : List Char) : List Char :=
  if l.getLast? = some '\r' then l.dropLast else l

/-- Rust `str::lines`: split on `\n`, drop a final empty piece (so a trailing
newline adds no line and `""` has no lines), strip one trailing `\r` per
line. -/
def rustLines (l : List Char) : List (List Char) :=
  (if (splitOnNl l).getLast? = some [] then (splitOnNl l).dropLast else splitOnNl l).map stripCr

/-- Join with `\n`, as `Vec::join("\n")` does. -/
def joinLines : List (List Char) → List Char
  | [] => []
  | [l] => l
  | l :: ls => l ++ '\n' :: joinLines ls

/-- Join strings with `\n` (the `.join("\n")` used by the serializers). -/
def joinStrNl : List String → String
  | [] => ""
  | [s] => s
  | s :: ss => s ++ "\n" ++ joinStrNl ss

/-! ### Shared types from the surrounding file model -/

/-- Rust `Integer` alias (`i32`). -/
abbrev Integer := Int

/-- Shared 2D position type (`osu_file::types::Position` with `Integer`
coordinates, as used by the events module and its tests). -/
structure Position where
  x : Integer
  y : Integer
deriving DecidableEq

/-- Line-indexed error wrapper (`osu_file::types::Error<E>`): a field-level
error together with the 0-based physical line index it occurred on. -/
structure Error (ε : Type) where
  err : ε
  line_index : Nat
deriving DecidableEq

/-- String of an integer as Rust `{}` prints it. -/
def intToStr (n : Int) : String :=
  String.mk (charsOfInt n)

/-- String of a natural as Rust `{}` prints it. -/
def natToStr (n : Nat) : String :=
  String.mk (charsOfNat n)

/-! ### Error enums of the events module -/

/-- Errors of the storyboard object parser
(`events/storyboard/error.rs`, `ObjectParseError`).  The boxed source error
inside `FieldParseError` is dropped; the field name and offending value are
kept. -/
inductive ObjectParseError where
  | UnknownObjectType (token : String)
  | MissingField (field_name : String)
  | FieldParseError (field_name : String) (value : String)
deriving DecidableEq

/-- Errors of the command-tree builder
(`events/storyboard/error.rs`, `CommandPushError`). -/
inductive CommandPushError where
  | InvalidIndentation (expected actual : Nat)
deriving DecidableEq

/-- Errors of the storyboard command parser
(`events/storyboard/error.rs`, `CommandParseError`). -/
inductive CommandParseError where
  | UnknownCommandType
  | MissingStartTime
  | InvalidStartTime
  | MissingLoopCount
  | InvalidLoopCount
  | MissingTriggerType
  | InvalidTriggerType
  | InvalidGroupNumber
  | MissingEndTime
  | InvalidEndTime
  | MissingEasing
  | InvalidEasing
  | MissingRed
  | MissingGreen
  | MissingBlue
  | InvalidRed
  | InvalidGreen
  | InvalidBlue
  | InvalidContinuingColours
  | MissingParameterType
  | InvalidParameterType
  | InvalidContinuingParameters
  | MissingMoveX
  | InvalidMoveX
  | MissingMoveY
  | InvalidMoveY
  | InvalidContinuingMove
  | MissingScaleX
  | InvalidScaleX
  | MissingScaleY
  | InvalidScaleY
  | InvalidContinuingScales
  | MissingStartOpacity
  | InvalidStartOpacity
  | InvalidContinuingOpacities
  | MissingStartScale
  | InvalidStartScale
  | InvalidContinuingScale
  | MissingStartRotation
  | InvalidStartRotation
  | InvalidContinuingRotation
deriving DecidableEq

/-- Modelled from the spec: `events/error.rs` is not part of the source
snapshot; the variants of `EventParamsParseError` are pinned by their uses
as nom `context` tags inside `EventParams::from_str` in
`src/osu_file/events/mod.rs`. -/
inductive EventParamsParseError where
  | MissingStartTime
  | MissingFileName
  | MissingXOffset
  | InvalidXOffset
  | MissingYOffset
  | InvalidYOffset
  | MissingEndTime
  | InvalidEndTime
  | MissingRed
  | InvalidRed
  | MissingGreen
  | InvalidGreen
  | MissingBlue
  | InvalidBlue
  | UnknownEventType
deriving DecidableEq

/-- Modelled from the spec: `events/error.rs` is not part of the source
snapshot; the variants of the section-level `ParseError` are pinned by their
uses inside `Events::from_str` in `src/osu_file/events/mod.rs` (direct
constructions plus the `Into` conversions applied by
`Error::new_from_result_into`). -/
inductive ParseError where
  | StoryboardCmdWithNoSprite
  | MissingStartTime
  | ParseStartTime
  | StoryboardObjectParseError (e : ObjectParseError)
  | CommandParseError (e : CommandParseError)
  | CommandPushError (e : CommandPushError)
  | EventParamsParseError (e : EventParamsParseError)
deriving DecidableEq

/-! ### Storyboard commands and objects -/

/-- Modelled from the spec: `events/storyboard/cmds.rs` is not part of the
source snapshot.  A command is one storyboard instruction (spec section 3);
the `Command { properties: CommandProperties }` wrapper of the source is
collapsed into a single inductive.  The two container variants `Loop` and
`Trigger` own their nested child commands (`L,<start_time>,<loop_count>` and
`T,<trigger_type>,...` in spec section 4.5); for `Trigger` and for the
non-container kinds the payload past the validated common prefix is kept as
the raw remainder text, since no claim depends on its decoded form. -/
inductive Command where
  | Loop (start_time loop_count : Integer) (commands : List Command)
  | Trigger (rest : String) (commands : List Command)
  | Other (kind : String) (rest : String)

/-- Child commands of a container command; non-containers have none. -/
def Command.children : Command → List Command
  | .Loop _ _ cs => cs
  | .Trigger _ cs => cs
  | .Other _ _ => []

/-- Modelled from the spec: `events/storyboard/sprites.rs` is not part of
the source snapshot.  Spec section 4.3 grammar:
`Sprite|Animation,<layer>,<origin>,<filepath>,<x>,<y>[,<frame_count>,<frame_delay>,<loop_type>]`. -/
inductive ObjectType where
  | Sprite (filepath : String)
  | Animation (filepath : String) (frame_count frame_delay : Integer) (loop_type : String)

/-- Modelled from the spec: a storyboard element (spec section 3) with its
layer, origin, position, object type and owned command forest.  The spec
leaves the closed layer/origin enumerations unpinned (section 9), so their
textual spellings are stored directly. -/
structure Object where
  layer : String
  origin : String
  position : Position
  object_type : ObjectType
  commands : List Command

/-! ### The `Events` data model (`src/osu_file/events/mod.rs`) -/

/-- Old-generation `Background` normal event payload. -/
structure Background where
  filename : String
  position : Option Position
deriving DecidableEq

/-- Old-generation `Video` normal event payload; `short_hand` records
whether the header was `1` or `Video`. -/
structure Video where
  filename : String
  position : Option Position
  short_hand : Bool
deriving DecidableEq

/-- Old-generation `Break` normal event payload. -/
structure Break where
  end_time : Integer
  short_hand : Bool
deriving DecidableEq

/-- Old-generation `ColourTransformation` payload; the `u8` components are
embedded as `Nat` (the parser enforces the 0–255 range). -/
structure ColourTransformation where
  red : Nat
  green : Nat
  blue : Nat
deriving DecidableEq

/-- `EventParams`: payload of a normal event. -/
inductive EventParams where
  | Background (b : Background)
  | Video (v : Video)
  | Break (b : Break)
  | ColourTransformation (t : ColourTransformation)
deriving DecidableEq

/-- `Event`: one line-level entry of the Events section. -/
inductive Event where
  | Comment (text : String)
  | NormalEvent (start_time : Integer) (event_params : EventParams)
  | Storyboard (obj : Object)

/-- `Events`: the parsed section, a sequence of events in source order. -/
structure Events where
  toList : List Event

/-! ### Nom-style helpers for the line parsers -/

/-- Prefix tag (`tag(p)`): returns the rest of the input when `p` is a
prefix, `none` otherwise. -/
def tagP : List Char → List Char → Option (List Char)
  | [], l => some l
  | _ :: _, [] => none
  | p :: ps, c :: cs => if c = p then tagP ps cs else none

/-! ### `EventParams::from_str` (`src/osu_file/events/mod.rs`, lines 367-489) -/

/-- Optional trailing coordinates of a background/video line: either end of
input (`eof` → no position) or `,<x:i32>,<y:i32-to-end>`. -/
def epCoordinates (l : List Char) : Except EventParamsParseError (Option Position) :=
  if l = [] then .ok none
  else
    match eatComma l with
    | none => .error .MissingXOffset
    | some r =>
      match parseI32 (takeField r) with
      | none => .error .InvalidXOffset
      | some x =>
        match eatComma (dropField r) with
        | none => .error .MissingYOffset
        | some r2 =>
          match parseI32 r2 with
          | none => .error .InvalidYOffset
          | some y => .ok (some ⟨x, y⟩)

/-- Background branch: input after the `0` tag.  The start-time field is
consumed but unused here (the event-level start time comes from the
separate probe in `Events::from_str`). -/
def epBackground (l : List Char) : Except EventParamsParseError EventParams :=
  match eatComma l with
  | none => .error .MissingStartTime
  | some r =>
    match eatComma (dropField r) with
    | none => .error .MissingFileName
    | some r2 =>
      match epCoordinates (dropField r2) with
      | .error e => .error e
      | .ok pos => .ok (.Background ⟨String.mk (takeField r2), pos⟩)

/-- Video branch: input after the `1` / `Video` tag. -/
def epVideo (short_hand : Bool) (l : List Char) : Except EventParamsParseError EventParams :=
  match eatComma l with
  | none => .error .MissingStartTime
  | some r =>
    match eatComma (dropField r) with
    | none => .error .MissingFileName
    | some r2 =>
      match epCoordinates (dropField r2) with
      | .error e => .error e
      | .ok pos => .ok (.Video ⟨String.mk (takeField r2), pos, short_hand⟩)

/-- Break branch: input after the `2` / `Break` tag; the end time is the
whole rest of the line (`consume_rest_type`). -/
def epBreak (short_hand : Bool) (l : List Char) : Except EventParamsParseError EventParams :=
  match eatComma l with
  | none => .error .MissingStartTime
  | some r =>
    match eatComma (dropField r) with
    | none => .error .MissingEndTime
    | some r2 =>
      match parseI32 r2 with
      | none => .error .InvalidEndTime
      | some e => .ok (.Break ⟨e, short_hand⟩)

/-- Colour-transformation branch: input after the `3` tag. -/
def epColour (l : List Char) : Except EventParamsParseError EventParams :=
  match eatComma l with
  | none => .error .MissingStartTime
  | some r =>
    match eatComma (dropField r) with
    | none => .error .MissingRed
    | some r2 =>
      match parseU8 (takeField r2) with
      | none => .error .InvalidRed
      | some red =>
        match eatComma (dropField r2) with
        | none => .error .MissingGreen
        | some r3 =>
          match parseU8 (takeField r3) with
          | none => .error .InvalidGreen
          | some green =>
            match eatComma (dropField r3) with
            | none => .error .MissingBlue
            | some r4 =>
              match parseU8 r4 with
              | none => .error .InvalidBlue
              | some blue => .ok (.ColourTransformation ⟨red, green, blue⟩)

/-- `EventParams::from_str`: dispatch on the leading header tag, in the
source's `alt` order; once a tag matches, every later failure is final
(`cut`), and when no tag matches the error is `UnknownEventType`. -/
def EventParams.fromStrCh (l : List Char) : Except EventParamsParseError EventParams :=
  if let some r := tagP ['0'] l then epBackground r
  else if let some r := tagP ['1'] l then epVideo true r
  else if let some r := tagP ('V' :: 'i' :: 'd' :: 'e' :: 'o' :: []) l then epVideo false r
  else if let some r := tagP ['2'] l then epBreak true r
  else if let some r := tagP ('B' :: 'r' :: 'e' :: 'a' :: 'k' :: []) l then epBreak false r
  else if let some r := tagP ['3'] l then epColour r
  else .error .UnknownEventType

/-! ### Storyboard object parser (spec-modelled) -/

/-- Sprite tail: `<layer>,<origin>,<filepath>,<x>,<y>` after `Sprite`
(input starts at the comma following the header token). -/
def spriteTail (l : List Char) : Except ObjectParseError (String × String × String × Position × List Char) :=
  match eatComma l with
  | none => .error (.MissingField "layer")
  | some r =>
    let layer := takeField r
    match eatComma (dropField r) with
    | none => .error (.MissingField "origin")
    | some r2 =>
      let origin := takeField r2
      match eatComma (dropField r2) with
      | none => .error (.MissingField "filepath")
      | some r3 =>
        let filepath := takeField r3
        match eatComma (dropField r3) with
        | none => .error (.MissingField "x")
        | some r4 =>
          match parseI32 (takeField r4) with
          | none => .error (.FieldParseError "x" (String.mk (takeField r4)))
          | some x =>
            match eatComma (dropField r4) with
            | none => .error (.MissingField "y")
            | some r5 =>
              match parseI32 (takeField r5) with
              | none => .error (.FieldParseError "y" (String.mk (takeField r5)))
              | some y =>
                .ok (String.mk layer, String.mk origin, String.mk filepath,
                     ⟨x, y⟩, dropField r5)

/-- Modelled from the spec: `Object::from_str`
(`events/storyboard/sprites.rs` is not part of the source snapshot).  Spec
section 4.3: header token `Sprite` or `Animation`; on header-token mismatch
with every known case it fails with `UnknownObjectType(token)`, the signal
the event stream parser uses for its normal-event fallback; field errors
use the `MissingField` / `FieldParseError` variants from
`events/storyboard/error.rs`. -/
def Object.fromStrCh (l : List Char) : Except ObjectParseError Object :=
  let tok := takeField l
  if tok = 'S' :: 'p' :: 'r' :: 'i' :: 't' :: 'e' :: [] then
    match spriteTail (dropField l) with
    | .error e => .error e
    | .ok (layer, origin, filepath, pos, rest) =>
      if rest = [] then
        .ok ⟨layer, origin, pos, .Sprite filepath, []⟩
      else .error (.FieldParseError "y" (String.mk rest))
  else if tok = 'A' :: 'n' :: 'i' :: 'm' :: 'a' :: 't' :: 'i' :: 'o' :: 'n' :: [] then
    match spriteTail (dropField l) with
    | .error e => .error e
    | .ok (layer, origin, filepath, pos, rest) =>
      match eatComma rest with
      | none => .error (.MissingField "frame_count")
      | some r =>
        match parseI32 (takeField r) with
        | none => .error (.FieldParseError "frame_count" (String.mk (takeField r)))
        | some fc =>
          match eatComma (dropField r) with
          | none => .error (.MissingField "frame_delay")
          | some r2 =>
            match parseI32 (takeField r2) with
            | none => .error (.FieldParseError "frame_delay" (String.mk (takeField r2)))
            | some fd =>
              match eatComma (dropField r2) with
              | none => .error (.MissingField "loop_type")
              | some r3 =>
                .ok ⟨layer, origin, pos, .Animation filepath fc fd (String.mk r3), []⟩
  else .error (.UnknownObjectType (String.mk tok))

/-! ### Storyboard command parser (spec-modelled) -/

/-- First-payload-field-missing error for each non-container command kind
(the per-kind `Missing...` variants exercised by `src/tests`). -/
def firstParamMissing (tok : List Char) : CommandParseError :=
  if tok = ['F'] then .MissingStartOpacity
  else if tok = ['M'] then .MissingMoveX
  else if tok = ['M', 'X'] then .MissingMoveX
  else if tok = ['M', 'Y'] then .MissingMoveY
  else if tok = ['S'] then .MissingStartScale
  else if tok = ['V'] then .MissingScaleX
  else if tok = ['R'] then .MissingStartRotation
  else if tok = ['C'] then .MissingRed
  else .MissingParameterType

/-- Modelled from the spec: `Command::from_str`
(`events/storyboard/cmds.rs` is not part of the source snapshot).  Spec
section 4.5: leading indentation is skipped, then dispatch on the one- or
two-letter type token; `L,<start_time:int>,<loop_count:int>`,
`T,<trigger_type>,...`, and for the non-container kinds the common prefix
`<easing:int>,<start_time:int>,<end_time:int-or-empty>` followed by a
payload whose decoded form no claim depends on, so it is kept as raw text;
an unrecognized token fails with `UnknownCommandType`. -/
def Command.fromStrCh (l : List Char) : Except CommandParseError Command :=
  let l := l.dropWhile (fun c => c = ' ' ∨ c = '_')
  let tok := takeField l
  let rest := dropField l
  if tok = ['L'] then
    match eatComma rest with
    | none => .error .MissingStartTime
    | some r =>
      match parseI32 (takeField r) with
      | none => .error .InvalidStartTime
      | some st =>
        match eatComma (dropField r) with
        | none => .error .MissingLoopCount
        | some r2 =>
          match parseI32 r2 with
          | none => .error .InvalidLoopCount
          | some lc => .ok (.Loop st lc [])
  else if tok = ['T'] then
    match eatComma rest with
    | none => .error .MissingTriggerType
    | some r =>
      if r = [] then .error .MissingTriggerType
      else .ok (.Trigger (String.mk r) [])
  else if tok = ['F'] ∨ tok = ['M'] ∨ tok = ['M', 'X'] ∨ tok = ['M', 'Y'] ∨ tok = ['S']
      ∨ tok = ['V'] ∨ tok = ['R'] ∨ tok = ['C'] ∨ tok = ['P'] then
    match eatComma rest with
    | none => .error .MissingEasing
    | some r =>
      match parseI32 (takeField r) with
      | none => .error .InvalidEasing
      | some _ =>
        match eatComma (dropField r) with
        | none => .error .MissingStartTime
        | some r2 =>
          match parseI32 (takeField r2) with
          | none => .error .InvalidStartTime
          | some _ =>
            match eatComma (dropField r2) with
            | none => .error .MissingEndTime
            | some r3 =>
              let endF := takeField r3
              if endF = [] ∨ (parseI32 endF).isSome then
                match eatComma (dropField r3) with
                | none => .error (firstParamMissing tok)
                | some _ => .ok (.Other (String.mk tok) (String.mk rest))
              else .error .InvalidEndTime
  else .error .UnknownCommandType

/-! ### Command-tree builder (spec-modelled `try_push_cmd`) -/

/-- Walk down the rightmost chain of open containers; `togo` counts the
container levels still to traverse, `i` is the current depth (used as the
`expected` component of the error), `actual` the indentation of the pushed
command. -/
def pushGo : Nat → List Command → Command → Nat → Nat → Except CommandPushError (List Command)
  | 0, _, _, i, actual => .error (.InvalidIndentation i actual)
  | togo + 1, cmds, cmd, i, actual =>
    match cmds.getLast? with
    | some (.Loop st lc cs) =>
      if togo = 0 then .ok (cmds.dropLast ++ [.Loop st lc (cs ++ [cmd])])
      else
        match pushGo togo cs cmd (i + 1) actual with
        | .error e => .error e
        | .ok cs' => .ok (cmds.dropLast ++ [.Loop st lc cs'])
    | some (.Trigger tr cs) =>
      if togo = 0 then .ok (cmds.dropLast ++ [.Trigger tr (cs ++ [cmd])])
      else
        match pushGo togo cs cmd (i + 1) actual with
        | .error e => .error e
        | .ok cs' => .ok (cmds.dropLast ++ [.Trigger tr cs'])
    | _ => .error (.InvalidIndentation i actual)

/-- Modelled from the spec: `Object::try_push_cmd`
(`events/storyboard/sprites.rs` is not part of the source snapshot).  Spec
sections 4.4 and 8: a command indented 1 is attached to the object's own
command list; a command indented `d > 1` must descend through exactly
`d - 1` nested open (rightmost, Loop/Trigger) containers and is appended to
the last one; any skipped depth or non-container on the path fails with
`InvalidIndentation(expected, actual)` where `expected` is the deepest
reachable depth along the path. -/
def tryPushCmd (sprite : Object) (cmd : Command) (indentation : Nat) : Except CommandPushError Object :=
  if indentation = 1 then .ok { sprite with commands := sprite.commands ++ [cmd] }
  else
    match pushGo (indentation - 1) sprite.commands cmd 1 indentation with
    | .error e => .error e
    | .ok cs => .ok { sprite with commands := cs }

/-! ### The serializer (`Event::fmt`, `src/osu_file/events/mod.rs` lines 153-303) -/

/-- Modelled from the spec: `Display` for `Command`
(`events/storyboard/cmds.rs` is not part of the source snapshot).  Loop
lines are `L,<start_time>,<loop_count>` (spec section 4.5); Trigger and
non-container commands re-emit their stored raw text after the type
token. -/
def cmdDisplay : Command → String
  | .Loop st lc _ => "L," ++ intToStr st ++ "," ++ intToStr lc
  | .Trigger rest _ => "T," ++ rest
  | .Other kind rest => kind ++ rest

/-- Indentation text: `" ".repeat(n)`. -/
def indentStr (n : Nat) : String :=
  String.mk (List.replicate n ' ')

/-- The explicit-stack inner loop of the command flattener (`Event::fmt`,
lines 242-284): emits the current command, descends into a non-empty
Loop/Trigger child list (saving the remaining siblings and their
indentation on the stack only when there are any), and on sibling
exhaustion pops the stack or stops.  The `fuel` argument is an embedding
artifact standing in for the Rust `loop`; every caller passes enough fuel
(one unit per emitted command), and the source never reads past the end of
the current list, so the two exhaustion branches are unreachable. -/
def innerLoop : Nat → List Command → Nat → List (List Command × Nat) → List String → List String
  | 0, _, _, _, acc => acc
  | _ + 1, [], _, _, acc => acc
  | fuel + 1, c :: rest, indentation, stack, acc =>
    let acc := acc ++ [indentStr indentation ++ cmdDisplay c]
    if c.children.isEmpty then
      if rest.isEmpty then
        match stack with
        | [] => acc
        | (prev, pind) :: stack' => innerLoop fuel prev pind stack' acc
      else innerLoop fuel rest indentation stack acc
    else
      innerLoop fuel c.children (indentation + 1)
        (if rest.isEmpty then stack else (rest, indentation) :: stack) acc

/-- Total number of commands in a forest, children included; used as the
fuel bound for the inner flattener loop (one unit per emitted line). -/
def cmdsSize : List Command → Nat
  | [] => 0
  | .Loop _ _ cs :: rest => 1 + cmdsSize cs + cmdsSize rest
  | .Trigger _ cs :: rest => 1 + cmdsSize cs + cmdsSize rest
  | .Other _ _ :: rest => 1 + cmdsSize rest

/-- The outer `for cmd in &object.commands` loop of the flattener (lines
224-288): each top-level command is emitted at indentation 1; a non-empty
container then runs the inner loop at indentation 2, after which the
indentation resets. -/
def goCmds : List Command → List String → List String
  | [], acc => acc
  | c :: cs, acc =>
    let acc := acc ++ [indentStr 1 ++ cmdDisplay c]
    let acc := if c.children.isEmpty then acc
      else innerLoop (cmdsSize c.children) c.children 2 [] acc
    goCmds cs acc

/-- Position suffix `,x,y` of a normal event, empty when absent
(`position_str` closure in `Event::fmt`). -/
def position_str : Option Position → String
  | some p => "," ++ intToStr p.x ++ "," ++ intToStr p.y
  | none => ""

/-- Header line of a storyboard object (`Event::fmt`, lines 191-215). -/
def objectHeaderStr (obj : Object) : String :=
  let pos_str := intToStr obj.position.x ++ "," ++ intToStr obj.position.y
  match obj.object_type with
  | .Sprite filepath =>
    "Sprite," ++ obj.layer ++ "," ++ obj.origin ++ "," ++ filepath ++ "," ++ pos_str
  | .Animation filepath frame_count frame_delay loop_type =>
    "Animation," ++ obj.layer ++ "," ++ obj.origin ++ "," ++ filepath ++ "," ++ pos_str
      ++ "," ++ intToStr frame_count ++ "," ++ intToStr frame_delay ++ "," ++ loop_type

/-- `Display` for `Event` (`Event::fmt`): comments as `//text`, normal
events per their variant grammar, storyboard objects as a header line
followed by the flattened, indented command lines. -/
def Event.toStringD : Event → String
  | .Comment comment => "//" ++ comment
  | .NormalEvent start_time event_params =>
    match event_params with
    | .Background b => "0," ++ intToStr start_time ++ "," ++ b.filename ++ position_str b.position
    | .Video v =>
      (if v.short_hand then "1" else "Video") ++ "," ++ intToStr start_time ++ ","
        ++ v.filename ++ position_str v.position
    | .Break b =>
      (if b.short_hand then "2" else "Break") ++ "," ++ intToStr start_time ++ ","
        ++ intToStr b.end_time
    | .ColourTransformation t =>
      "3," ++ intToStr start_time ++ "," ++ natToStr t.red ++ "," ++ natToStr t.green
        ++ "," ++ natToStr t.blue
  | .Storyboard obj =>
    if obj.commands.isEmpty then objectHeaderStr obj
    else objectHeaderStr obj ++ "\n" ++ joinStrNl (goCmds obj.commands [])

/-! ### `Events::from_str` / `Events::to_string` (`src/osu_file/events/mod.rs` lines 34-141) -/

/-- Blank-line test `line.trim().is_empty()`: true iff every character is
whitespace. -/
def isBlankLine (l : List Char) : Bool :=
  l.all Char.isWhitespace

/-- Comment recognizer `preceded(tag("//"), rest)`: the text after a
leading `//`, or `none`. -/
def commentRest : List Char → Option (List Char)
  | '/' :: '/' :: rest => some rest
  | _ => none

/-- Indentation of a line: length of the leading run of spaces and
underscores (`take_while(|c| c == ' ' || c == '_')`). -/
def countIndent (l : List Char) : Nat :=
  (l.takeWhile (fun c => c = ' ' ∨ c = '_')).length

/-- Discriminates the one object-parse error that triggers the
normal-event fallback (`if let ObjectParseError::UnknownObjectType(_)`). -/
def isUnknownObjectType : ObjectParseError → Bool
  | .UnknownObjectType _ => true
  | _ => false

/-- Start-time probe run before the normal-event fallback (`Events::from_str`
lines 74-103): first comma field skipped, a comma (else `MissingStartTime`),
then an `Integer` comma field (else `ParseStartTime`). -/
def miniParse (l : List Char) : Except ParseError Integer :=
  match eatComma (dropField l) with
  | none => .error .MissingStartTime
  | some r =>
    match parseI32 (takeField r) with
    | none => .error .ParseStartTime
    | some start_time => .ok start_time

/-- Normal-event fallback of `Events::from_str` (lines 74-111): probe the
start time, then parse the whole line as `EventParams`; both errors are
wrapped with the physical line index. -/
def normalEventFallback (events : List Event) (line_index : Nat) (l : List Char) :
    Except (Error ParseError) (List Event) :=
  match miniParse l with
  | .error e => .error ⟨e, line_index⟩
  | .ok start_time =>
    match EventParams.fromStrCh l with
    | .error e => .error ⟨.EventParamsParseError e, line_index⟩
    | .ok event_params => .ok (events ++ [.NormalEvent start_time event_params])

/-- One iteration of the line loop of `Events::from_str` (lines 39-123):
skip blank lines, emit comments, route indented lines to the last event's
storyboard object (else `StoryboardCmdWithNoSprite`), and parse
zero-indented lines as a storyboard object with normal-event fallback on
`UnknownObjectType`. -/
def processLine (events : List Event) (line_index : Nat) (l : List Char) :
    Except (Error ParseError) (List Event) :=
  if isBlankLine l then .ok events
  else
    match commentRest l with
    | some comment => .ok (events ++ [.Comment (String.mk comment)])
    | none =>
      let indent := countIndent l
      if 0 < indent then
        match events.getLast? with
        | some (.Storyboard sprite) =>
          match Command.fromStrCh l with
          | .error e => .error ⟨.CommandParseError e, line_index⟩
          | .ok cmd =>
            match tryPushCmd sprite cmd indent with
            | .error e => .error ⟨.CommandPushError e, line_index⟩
            | .ok sprite' => .ok (events.dropLast ++ [.Storyboard sprite'])
        | _ => .error ⟨.StoryboardCmdWithNoSprite, line_index⟩
      else
        match Object.fromStrCh l with
        | .ok object => .ok (events ++ [.Storyboard object])
        | .error err =>
          if isUnknownObjectType err then normalEventFallback events line_index l
          else .error ⟨.StoryboardObjectParseError err, line_index⟩

/-- The enumerated line loop of `Events::from_str`: lines are processed in
order and the index counts every physical line, blank ones included. -/
def runLines (events : List Event) (idx : Nat) : List (List Char) → Except (Error ParseError) (List Event)
  | [] => .ok events
  | l :: rest =>
    match processLine events idx l with
    | .error e => .error e
    | .ok events' => runLines events' (idx + 1) rest

/-- `Events::from_str`: split into Rust lines, run the line loop from index
0 with an empty output, and wrap a successful result in `Some`.  The
version argument is ignored by the source (`fn from_str(s, _)`). -/
def Events.fromStr (s : String) (_version : Nat) : Except (Error ParseError) (Option Events) :=
  match runLines [] 0 (rustLines s.data) with
  | .error e => .error e
  | .ok events => .ok (some ⟨events⟩)

/-- `Events::to_string`: render every event with its `Display`
implementation and join with newlines; always `Some`, and the version
argument is ignored by the source (`fn to_string(&self, _)`). -/
def Events.toString (e : Events) (_version : Nat) : Option String :=
  some (joinStrNl (e.toList.map Event.toStringD))

/-! ### Reference command flattening (spec section 4.6, for claim C8) -/

/-- Reference rendering of a command forest following the spec's words:
each command is written preceded by one indent character per nesting level,
with the children of a Loop/Trigger at one deeper level right after it.
Stated independently of the explicit-stack traversal so the two can be
compared. -/
def flattenCmdsSpec : List Command → Nat → List String
  | [], _ => []
  | .Loop st lc cs :: rest, d =>
    (indentStr d ++ cmdDisplay (.Loop st lc cs))
      :: (flattenCmdsSpec cs (d + 1) ++ flattenCmdsSpec rest d)
  | .Trigger tr cs :: rest, d =>
    (indentStr d ++ cmdDisplay (.Trigger tr cs))
      :: (flattenCmdsSpec cs (d + 1) ++ flattenCmdsSpec rest d)
  | .Other kind r :: rest, d =>
    (indentStr d ++ cmdDisplay (.Other kind r)) :: flattenCmdsSpec rest d

/-- Total size of the sibling lists saved on the flattener's explicit
stack; together with `cmdsSize` of the current list it bounds the number of
lines still to be emitted. -/
def stackSize : List (List Command × Nat) → Nat
  | [] => 0
  | (cs, _) :: rest => cmdsSize cs + stackSize rest

/-- Reference rendering of the saved stack frames, topmost first. -/
def flattenStack : List (List Command × Nat) → List String
  | [] => []
  | (cs, d) :: rest => flattenCmdsSpec cs d ++ flattenStack rest

/-! ### Versioned normal events (`src/osu_file/events/normal_event/mod.rs`) -/

namespace NormalEvent

/-- The legacy time offset constant.  `src/helper/mod.rs` pins the value:
`pub const OLD_VERSION_TIME_OFFSET: u32 = 24`; the normal-event module
imports an `Integer` constant of the same name from its parent. -/
def OLD_VERSION_TIME_OFFSET : Integer := 24

/-- `time_to_string` (`normal_event/mod.rs` lines 37-45): subtract the
legacy offset when the version lies in the old range 3..=4, then print. -/
def time_to_string (time : Integer) (version : Nat) : String :=
  if 3 ≤ version ∧ version ≤ 4 then intToStr (time - OLD_VERSION_TIME_OFFSET)
  else intToStr time

/-- Modelled from the spec: the `start_time_offset` / `end_time` parsers of
`normal_event/parsers.rs` are not part of the source snapshot.  Spec
section 4.2: start/end times receive the constant legacy offset added on
parse when the active version lies in the old range (the same 3..=4 range
that `time_to_string` and `helper::add_old_version_time_offset` use). -/
def addOffset (t : Integer) (version : Nat) : Integer :=
  if 3 ≤ version ∧ version ≤ 4 then t + OLD_VERSION_TIME_OFFSET else t

/-- `position_str` (`normal_event/mod.rs` lines 30-35). -/
def position_str : Option Position → String
  | some p => "," ++ intToStr p.x ++ "," ++ intToStr p.y
  | none => ""

/-- Modelled from the spec: errors of `Background::from_str`; the variants
are pinned by their uses as nom `context` tags in `normal_event/mod.rs`
(the module's `error.rs` is not part of the source snapshot). -/
inductive ParseBackgroundError where
  | WrongEventType
  | MissingStartTime
  | InvalidStartTime
  | MissingFileName
  | MissingX
  | InvalidX
  | MissingY
  | InvalidY
deriving DecidableEq

/-- Modelled from the spec: errors of `Video::from_str`, pinned by their
uses as nom `context` tags in `normal_event/mod.rs`. -/
inductive ParseVideoError where
  | WrongEventType
  | MissingStartTime
  | InvalidStartTime
  | MissingFileName
  | MissingX
  | InvalidX
  | MissingY
  | InvalidY
deriving DecidableEq

/-- Modelled from the spec: errors of `Break::from_str`, pinned by their
uses as nom `context` tags in `normal_event/mod.rs`. -/
inductive ParseBreakError where
  | WrongEventType
  | MissingStartTime
  | InvalidStartTime
  | MissingEndTime
  | InvalidEndTime
deriving DecidableEq

/-- Modelled from the spec: errors of `ColourTransformation::from_str`,
pinned by their uses as nom `context` tags in `normal_event/mod.rs`. -/
inductive ParseColourTransformationError where
  | WrongEventType
  | MissingStartTime
  | InvalidStartTime
  | MissingRed
  | InvalidRed
  | MissingGreen
  | InvalidGreen
  | MissingBlue
  | InvalidBlue
deriving DecidableEq

/-- Versioned `Background` event (`normal_event/mod.rs` lines 47-53).
`FilePath` is embedded as the raw field text. -/
structure Background where
  start_time : Integer
  file_name : String
  position : Option Position
  commands : List Command

/-- Versioned `Video` event (lines 120-127). -/
structure Video where
  start_time : Integer
  file_name : String
  position : Option Position
  commands : List Command
  short_hand : Bool

/-- Versioned `Break` event (lines 211-216). -/
structure Break where
  start_time : Integer
  end_time : Integer
  short_hand : Bool
deriving DecidableEq

/-- Versioned `ColourTransformation` event (lines 276-282); `u8` components
as range-checked `Nat`. -/
structure ColourTransformation where
  start_time : Integer
  red : Nat
  green : Nat
  blue : Nat
deriving DecidableEq

/-- Modelled from the spec: the `file_name_and_position` parser of
`normal_event/parsers.rs` is not part of the source snapshot.  Spec
section 4.2: `<file>[,<x>,<y>]` — a comma field for the file name, then
either end of input (no position) or `,<x:i32>,<y:i32-to-end>`, with the
per-field missing/invalid errors supplied by the caller. -/
def fileNameAndPosition (missingX invalidX missingY invalidY : ε) (l : List Char) :
    Except ε (String × Option Position) :=
  let file_name := takeField l
  let r := dropField l
  if r = [] then .ok (String.mk file_name, none)
  else
    match eatComma r with
    | none => .error missingX
    | some r1 =>
      match parseI32 (takeField r1) with
      | none => .error invalidX
      | some x =>
        match eatComma (dropField r1) with
        | none => .error missingY
        | some r2 =>
          match parseI32 r2 with
          | none => .error invalidY
          | some y => .ok (String.mk file_name, some ⟨x, y⟩)

/-- `Background::from_str` (lines 57-93): header tag `0`, a comma, a plain
`Integer` start time — the version argument is ignored and no legacy
offset is applied — a comma, then file name and optional position. -/
def Background.fromStr (s : String) (_version : Nat) :
    Except ParseBackgroundError (Option Background) :=
  match tagP ['0'] s.data with
  | none => .error .WrongEventType
  | some r =>
    match eatComma r with
    | none => .error .MissingStartTime
    | some r1 =>
      match parseI32 (takeField r1) with
      | none => .error .InvalidStartTime
      | some start_time =>
        match eatComma (dropField r1) with
        | none => .error .MissingFileName
        | some r2 =>
          match fileNameAndPosition ParseBackgroundError.MissingX
              ParseBackgroundError.InvalidX ParseBackgroundError.MissingY
              ParseBackgroundError.InvalidY r2 with
          | .error e => .error e
          | .ok (file_name, position) =>
            .ok (some ⟨start_time, file_name, position, []⟩)

/-- `Background::to_string_cmd` (lines 110-117): the start time is printed
raw — `time_to_string` is not used, so no offset is subtracted at any
version. -/
def Background.to_string_cmd (b : Background) (_version : Nat) : Option String :=
  some ("0," ++ intToStr b.start_time ++ "," ++ b.file_name ++ position_str b.position)

/-- `Video::from_str` (lines 144-178): header `1` (shorthand) or `Video`,
a comma, an offset-adjusted start time, a comma, file name and optional
position. -/
def Video.fromStr (s : String) (version : Nat) : Except ParseVideoError (Option Video) :=
  let afterTag : Option (Bool × List Char) :=
    match tagP ['1'] s.data with
    | some r => some (true, r)
    | none =>
      match tagP ('V' :: 'i' :: 'd' :: 'e' :: 'o' :: []) s.data with
      | some r => some (false, r)
      | none => none
  match afterTag with
  | none => .error .WrongEventType
  | some (short_hand, r) =>
    match eatComma r with
    | none => .error .MissingStartTime
    | some r1 =>
      match parseI32 (takeField r1) with
      | none => .error .InvalidStartTime
      | some st =>
        match eatComma (dropField r1) with
        | none => .error .MissingFileName
        | some r2 =>
          match fileNameAndPosition ParseVideoError.MissingX ParseVideoError.InvalidX
              ParseVideoError.MissingY ParseVideoError.InvalidY r2 with
          | .error e => .error e
          | .ok (file_name, position) =>
            .ok (some ⟨addOffset st version, file_name, position, [], short_hand⟩)

/-- `Video::to_string_cmd` (lines 196-208): header per `short_hand`, start
time through `time_to_string` (offset subtracted in the old range). -/
def Video.to_string_cmd (v : Video) (version : Nat) : Option String :=
  some ((if v.short_hand then "1" else "Video") ++ "," ++ time_to_string v.start_time version
    ++ "," ++ v.file_name ++ position_str v.position)

/-- `Break::from_str` (lines 231-259): header `2` (shorthand) or `Break`,
then offset-adjusted start and end times. -/
def Break.fromStr (s : String) (version : Nat) : Except ParseBreakError (Option Break) :=
  let afterTag : Option (Bool × List Char) :=
    match tagP ['2'] s.data with
    | some r => some (true, r)
    | none =>
      match tagP ('B' :: 'r' :: 'e' :: 'a' :: 'k' :: []) s.data with
      | some r => some (false, r)
      | none => none
  match afterTag with
  | none => .error .WrongEventType
  | some (short_hand, r) =>
    match eatComma r with
    | none => .error .MissingStartTime
    | some r1 =>
      match parseI32 (takeField r1) with
      | none => .error .InvalidStartTime
      | some st =>
        match eatComma (dropField r1) with
        | none => .error .MissingEndTime
        | some r2 =>
          match parseI32 r2 with
          | none => .error .InvalidEndTime
          | some et =>
            .ok (some ⟨addOffset st version, addOffset et version, short_hand⟩)

/-- `Break::to_string` (lines 261-274): both times through
`time_to_string`. -/
def Break.toString (b : Break) (version : Nat) : Option String :=
  some ((if b.short_hand then "2" else "Break") ++ "," ++ time_to_string b.start_time version
    ++ "," ++ time_to_string b.end_time version)

/-- `ColourTransformation::from_str` (lines 286-337): header `3`, an
offset-adjusted start time, then the three `u8` colour components. -/
def ColourTransformation.fromStr (s : String) (version : Nat) :
    Except ParseColourTransformationError (Option ColourTransformation) :=
  match tagP ['3'] s.data with
  | none => .error .WrongEventType
  | some r =>
    match eatComma r with
    | none => .error .MissingStartTime
    | some r1 =>
      match parseI32 (takeField r1) with
      | none => .error .InvalidStartTime
      | some st =>
        match eatComma (dropField r1) with
        | none => .error .MissingRed
        | some r2 =>
          match parseU8 (takeField r2) with
          | none => .error .InvalidRed
          | some red =>
            match eatComma (dropField r2) with
            | none => .error .MissingGreen
            | some r3 =>
              match parseU8 (takeField r3) with
              | none => .error .InvalidGreen
              | some green =>
                match eatComma (dropField r3) with
                | none => .error .MissingBlue
                | some r4 =>
                  match parseU8 r4 with
                  | none => .error .InvalidBlue
                  | some blue => .ok (some ⟨addOffset st version, red, green, blue⟩)

/-- `ColourTransformation::to_string` (lines 339-353): emits the
`3,<start>,<r>,<g>,<b>` line only for versions below 14, `None`
otherwise. -/
def ColourTransformation.toString (t : ColourTransformation) (version : Nat) : Option String :=
  if version < 14 then
    some ("3," ++ time_to_string t.start_time version ++ "," ++ natToStr t.red ++ ","
      ++ natToStr t.green ++ "," ++ natToStr t.blue)
  else none

end NormalEvent

/-! ### Well-formedness class for the round-trip law (claim C1) -/

/-- Text free of newline and carriage-return characters. -/
def noNlCr (s : String) : Bool :=
  s.data.all fun c => c != '\n' && c != '\r'

/-- Comma-free, newline-free field text (safe to re-split on parse). -/
def plainField (s : String) : Bool :=
  s.data.all fun c => c != '\n' && c != '\r' && c != ','

/-- Both coordinates in `i32` range (or no position at all). -/
def posOk : Option Position → Bool
  | none => true
  | some p => decide (i32Range p.x) && decide (i32Range p.y)

/-- Events whose serialized line re-parses to the same event: comments
without embedded newlines, and normal events whose filename is comma- and
newline-free and whose numeric fields fit the machine types they were
declared with.  Storyboard objects are outside this class. -/
def wfEvent : Event → Bool
  | .Comment text => noNlCr text
  | .NormalEvent start_time event_params =>
    decide (i32Range start_time) &&
      match event_params with
      | .Background b => plainField b.filename && posOk b.position
      | .Video v => plainField v.filename && posOk v.position
      | .Break b => decide (i32Range b.end_time)
      | .ColourTransformation t =>
        decide (t.red < 256) && decide (t.green < 256) && decide (t.blue < 256)
  | .Storyboard _ => false

/-! ## Lemmas: decimal codecs -/

theorem natCharsGo_acc (fuel : Nat) : ∀ (n : Nat) (acc : List Char),
    natCharsGo fuel n acc = natCharsGo fuel n [] ++ acc := by
  induction fuel with
  | zero => intro n acc; simp [natCharsGo]
  | succ fuel ih =>
    intro n acc
    simp only [natCharsGo]
    split
    · simp
    · rw [ih (n / 10) (Nat.digitChar (n % 10) :: acc),
        ih (n / 10) [Nat.digitChar (n % 10)]]
      simp

theorem natCharsGo_extra : ∀ (fuel₁ fuel₂ n : Nat), n < fuel₁ → n < fuel₂ →
    natCharsGo fuel₁ n [] = natCharsGo fuel₂ n [] := by
  intro fuel₁
  induction fuel₁ using Nat.strong_induction_on with
  | _ fuel₁ ih =>
    intro fuel₂ n h₁ h₂
    match fuel₁, fuel₂ with
    | f₁ + 1, f₂ + 1 =>
      simp only [natCharsGo]
      split
      · rfl
      · rename_i hn
        rw [natCharsGo_acc f₁, natCharsGo_acc f₂]
        have hdiv : n / 10 < n := Nat.div_lt_self (by omega) (by omega)
        rw [ih f₁ (by omega) f₂ (n / 10) (by omega) (by omega)]

theorem charsOfNat_eq (n : Nat) :
    charsOfNat n = if n < 10 then [Nat.digitChar n]
      else charsOfNat (n / 10) ++ [Nat.digitChar (n % 10)] := by
  conv_lhs => unfold charsOfNat
  simp only [natCharsGo]
  split
  · rename_i h
    rw [Nat.mod_eq_of_lt h]
  · rename_i h
    rw [natCharsGo_acc]
    have hdiv : n / 10 < n := Nat.div_lt_self (by omega) (by omega)
    rw [natCharsGo_extra n (n / 10 + 1) (n / 10) (by omega) (by omega)]
    rfl

theorem digitChar_isDigit {d : Nat} (h : d < 10) : (Nat.digitChar d).isDigit = true := by
  interval_cases d <;> decide

theorem digitChar_toNat {d : Nat} (h : d < 10) : (Nat.digitChar d).toNat = d + 48 := by
  interval_cases d <;> decide

theorem charsOfNat_all_isDigit (n : Nat) : ∀ c ∈ charsOfNat n, c.isDigit = true := by
  induction n using Nat.strong_induction_on with
  | _ n ih =>
    rw [charsOfNat_eq]
    split
    · rename_i h
      intro c hc
      simp at hc
      subst hc
      exact digitChar_isDigit h
    · rename_i h
      intro c hc
      simp at hc
      rcases hc with hc | hc
      · exact ih (n / 10) (Nat.div_lt_self (by omega) (by omega)) c hc
      · subst hc
        exact digitChar_isDigit (Nat.mod_lt n (by omega))

theorem charsOfNat_ne_nil (n : Nat) : charsOfNat n ≠ [] := by
  rw [charsOfNat_eq]
  split
  · simp
  · simp

theorem digitsVal_append_digit (a : List Char) (c : Char) :
    digitsVal (a ++ [c]) = digitsVal a * 10 + (c.toNat - 48) := by
  simp [digitsVal]

theorem digitsVal_charsOfNat (n : Nat) : digitsVal (charsOfNat n) = n := by
  induction n using Nat.strong_induction_on with
  | _ n ih =>
    rw [charsOfNat_eq]
    split
    · rename_i h
      simp [digitsVal, digitChar_toNat h]
    · rename_i h
      rw [digitsVal_append_digit,
        ih (n / 10) (Nat.div_lt_self (by omega) (by omega)),
        digitChar_toNat (Nat.mod_lt n (by omega))]
      omega

theorem parseNat_charsOfNat (n : Nat) : parseNat (charsOfNat n) = some n := by
  have hne := charsOfNat_ne_nil n
  have hdig := charsOfNat_all_isDigit n
  rcases h : charsOfNat n with _ | ⟨c, cs⟩
  · exact absurd h hne
  · rw [← h]
    have : charsOfNat n ≠ [] := hne
    unfold parseNat
    rw [h]
    rw [← h]
    simp only [List.all_eq_true]
    rw [if_pos (by intro c hc; simpa using hdig c hc)]
    rw [digitsVal_charsOfNat]

theorem isDigit_ne_plus {c : Char} (h : c.isDigit = true) : c ≠ '+' := by
  rintro rfl; exact absurd h (by decide)

theorem isDigit_ne_minus {c : Char} (h : c.isDigit = true) : c ≠ '-' := by
  rintro rfl; exact absurd h (by decide)

theorem isDigit_ne_comma {c : Char} (h : c.isDigit = true) : c ≠ ',' := by
  rintro rfl; exact absurd h (by decide)

theorem isDigit_ne_nl {c : Char} (h : c.isDigit = true) : c ≠ '\n' := by
  rintro rfl; exact absurd h (by decide)

theorem isDigit_ne_cr {c : Char} (h : c.isDigit = true) : c ≠ '\r' := by
  rintro rfl; exact absurd h (by decide)

theorem charsOfNat_head_isDigit (n : Nat) :
    ∃ c cs, charsOfNat n = c :: cs ∧ c.isDigit = true := by
  rcases h : charsOfNat n with _ | ⟨c, cs⟩
  · exact absurd h (charsOfNat_ne_nil n)
  · exact ⟨c, cs, rfl, charsOfNat_all_isDigit n c (by rw [h]; exact List.mem_cons_self c cs)⟩

theorem parseI32_charsOfNat_of_nonneg {m : Nat} (hm : m ≤ 2 ^ 31 - 1) :
    parseI32 (charsOfNat m) = some (m : Int) := by
  obtain ⟨c, cs, hc, hdig⟩ := charsOfNat_head_isDigit m
  unfold parseI32
  rw [hc]
  simp only [List.head?]
  rw [if_neg (by simp [isDigit_ne_plus hdig]), if_neg (by simp [isDigit_ne_minus hdig]), ← hc,
    parseNat_charsOfNat]
  simp only [Option.some_bind]
  rw [if_pos (by omega)]

theorem parseI32_charsOfInt {n : Int} (h : i32Range n) : parseI32 (charsOfInt n) = some n := by
  obtain ⟨h₁, h₂⟩ := h
  unfold charsOfInt
  split
  · rename_i hneg
    obtain ⟨c, cs, hc, hdig⟩ := charsOfNat_head_isDigit n.natAbs
    unfold parseI32
    simp only [List.head?_cons, List.tail_cons]
    rw [if_neg (by decide), if_pos (by decide), parseNat_charsOfNat]
    have hle : n.natAbs ≤ 2 ^ 31 := by omega
    simp only [Option.some_bind, if_pos hle]
    congr 1
    omega
  · rename_i hpos
    rw [parseI32_charsOfNat_of_nonneg (by omega)]
    congr 1
    omega

theorem parseU8_charsOfNat {m : Nat} (hm : m ≤ 255) : parseU8 (charsOfNat m) = some m := by
  obtain ⟨c, cs, hc, hdig⟩ := charsOfNat_head_isDigit m
  unfold parseU8
  rw [hc]
  simp only [List.head?]
  rw [if_neg (by simp [isDigit_ne_plus hdig]), ← hc, parseNat_charsOfNat]
  simp [hm]

theorem charsOfInt_chars (n : Int) : ∀ c ∈ charsOfInt n, c.isDigit = true ∨ c = '-' := by
  unfold charsOfInt
  split
  · intro c hc
    rcases hc with _ | hc
    · right; rfl
    · left; exact charsOfNat_all_isDigit _ c (by assumption)
  · intro c hc
    left; exact charsOfNat_all_isDigit _ c hc

theorem charsOfInt_no_comma (n : Int) : ',' ∉ charsOfInt n := by
  intro hmem
  rcases charsOfInt_chars n ',' hmem with h | h
  · exact absurd h (by decide)
  · exact absurd h (by decide)

theorem charsOfInt_no_nl (n : Int) : '\n' ∉ charsOfInt n := by
  intro hmem
  rcases charsOfInt_chars n '\n' hmem with h | h
  · exact absurd h (by decide)
  · exact absurd h (by decide)

theorem charsOfInt_no_cr (n : Int) : '\r' ∉ charsOfInt n := by
  intro hmem
  rcases charsOfInt_chars n '\r' hmem with h | h
  · exact absurd h (by decide)
  · exact absurd h (by decide)

theorem charsOfNat_no_comma (n : Nat) : ',' ∉ charsOfNat n := by
  intro hmem
  exact absurd (charsOfNat_all_isDigit n ',' hmem) (by decide)

theorem charsOfNat_no_nl (n : Nat) : '\n' ∉ charsOfNat n := by
  intro hmem
  exact absurd (charsOfNat_all_isDigit n '\n' hmem) (by decide)

theorem charsOfNat_no_cr (n : Nat) : '\r' ∉ charsOfNat n := by
  intro hmem
  exact absurd (charsOfNat_all_isDigit n '\r' hmem) (by decide)

/-! ## Lemmas: comma-field splitting -/

theorem takeField_append {a : List Char} (b : List Char) (h : ',' ∉ a) :
    takeField (a ++ ',' :: b) = a ∧ dropField (a ++ ',' :: b) = ',' :: b := by
  induction a with
  | nil => simp [takeField, dropField]
  | cons c a' ih =>
    have hc : c ≠ ',' := by intro hc; exact h (by simp [hc])
    have hrest : ',' ∉ a' := fun hm => h (by simp [hm])
    obtain ⟨ht, hd⟩ := ih hrest
    constructor
    · simpa [takeField, hc] using ht
    · simpa [dropField, hc] using hd

theorem takeField_no_comma {a : List Char} (h : ',' ∉ a) :
    takeField a = a ∧ dropField a = [] := by
  induction a with
  | nil => simp [takeField, dropField]
  | cons c a' ih =>
    have hc : c ≠ ',' := by intro hc; exact h (by simp [hc])
    have hrest : ',' ∉ a' := fun hm => h (by simp [hm])
    obtain ⟨ht, hd⟩ := ih hrest
    constructor
    · simpa [takeField, hc] using ht
    · simpa [dropField, hc] using hd

/-! ## Lemmas: tags, line splitting and joining -/

theorem tagP_self_append (p rest : List Char) : tagP p (p ++ rest) = some rest := by
  induction p with
  | nil => rfl
  | cons c p' ih => simp [tagP, ih]

theorem data_append (s t : String) : (s ++ t).data = s.data ++ t.data := by
  cases s; cases t; rfl

theorem string_mk_data (s : String) : String.mk s.data = s := by
  cases s; rfl

theorem splitOnNl_ne_nil (l : List Char) : splitOnNl l ≠ [] := by
  cases l with
  | nil => simp [splitOnNl]
  | cons c rest =>
    simp only [splitOnNl]
    rcases splitOnNl rest with _ | ⟨p, ps⟩
    · simp
    · split
      · simp
      · split <;> simp

theorem splitOnNl_no_nl {l : List Char} (h : '\n' ∉ l) : splitOnNl l = [l] := by
  induction l with
  | nil => rfl
  | cons c l' ih =>
    have hc : c ≠ '\n' := fun hc => h (by simp [hc])
    have h' : '\n' ∉ l' := fun hm => h (by simp [hm])
    simp [splitOnNl, ih h', hc]

theorem splitOnNl_append_nl {l : List Char} (r : List Char) (h : '\n' ∉ l) :
    splitOnNl (l ++ '\n' :: r) = l :: splitOnNl r := by
  induction l with
  | nil =>
    simp only [List.nil_append, splitOnNl]
    rcases hr : splitOnNl r with _ | ⟨p, ps⟩
    · exact absurd hr (splitOnNl_ne_nil r)
    · simp
  | cons c l' ih =>
    have hc : c ≠ '\n' := fun hc => h (by simp [hc])
    have h' : '\n' ∉ l' := fun hm => h (by simp [hm])
    have hstep : splitOnNl (c :: (l' ++ '\n' :: r)) =
        match splitOnNl (l' ++ '\n' :: r) with
        | [] => [[c]]
        | l :: ls => if c = '\n' then [] :: l :: ls else (c :: l) :: ls := rfl
    rw [List.cons_append, hstep, ih h']
    simp [hc]

theorem stripCr_no_cr {l : List Char} (h : '\r' ∉ l) : stripCr l = l := by
  unfold stripCr
  rcases hg : l.getLast? with _ | c
  · simp
  · have hmem : c ∈ l.getLast? := by rw [hg]; rfl
    obtain ⟨hne, heq⟩ := List.mem_getLast?_eq_getLast hmem
    have hc : c ∈ l := heq ▸ List.getLast_mem hne
    have : c ≠ '\r' := fun hce => h (hce ▸ hc)
    simp [this]

theorem splitOnNl_joinLines {ls : List (List Char)} (hne : ls ≠ [])
    (h : ∀ l ∈ ls, '\n' ∉ l) : splitOnNl (joinLines ls) = ls := by
  induction ls with
  | nil => exact absurd rfl hne
  | cons l rest ih =>
    rcases rest with _ | ⟨l2, rest'⟩
    · exact splitOnNl_no_nl (h l (by simp))
    · have hjoin : joinLines (l :: l2 :: rest') = l ++ '\n' :: joinLines (l2 :: rest') := rfl
      rw [hjoin, splitOnNl_append_nl _ (h l (by simp)),
        ih (by simp) (fun x hx => h x (List.mem_cons_of_mem l hx))]

theorem rustLines_joinLines {ls : List (List Char)}
    (h : ∀ l ∈ ls, '\n' ∉ l ∧ '\r' ∉ l ∧ l ≠ []) :
    rustLines (joinLines ls) = ls := by
  rcases ls with _ | ⟨l, rest⟩
  · rfl
  · unfold rustLines
    rw [splitOnNl_joinLines (by simp) (fun x hx => (h x hx).1)]
    have hlast : (l :: rest).getLast? ≠ some [] := by
      rw [List.getLast?_eq_getLast_of_ne_nil (l := l :: rest) (by simp)]
      intro hc
      have hmem := List.getLast_mem (l := l :: rest) (by simp)
      exact (h _ hmem).2.2 (by injection hc)
    rw [if_neg hlast]
    rw [List.map_congr_left (fun x hx => stripCr_no_cr (h x hx).2.1)]
    exact List.map_id (l :: rest)

theorem joinStrNl_data (ss : List String) :
    (joinStrNl ss).data = joinLines (ss.map String.data) := by
  induction ss with
  | nil => rfl
  | cons s rest ih =>
    rcases rest with _ | ⟨s2, rest'⟩
    · rfl
    · show (s ++ "\n" ++ joinStrNl (s2 :: rest')).data = _
      rw [data_append, data_append, ih]
      have hnl : "\n".data = ['\n'] := rfl
      rw [hnl]
      have hrhs : joinLines (List.map String.data (s :: s2 :: rest')) =
          s.data ++ '\n' :: joinLines (List.map String.data (s2 :: rest')) := rfl
      rw [hrhs]
      simp

/-! ## Lemmas: well-formedness unpacking and line shapes -/

theorem noNlCr_spec {s : String} (h : noNlCr s = true) : '\n' ∉ s.data ∧ '\r' ∉ s.data := by
  simp only [noNlCr, List.all_eq_true, Bool.and_eq_true, bne_iff_ne, ne_eq] at h
  constructor
  · intro hm; exact (h '\n' hm).1 rfl
  · intro hm; exact (h '\r' hm).2 rfl

theorem plainField_spec {s : String} (h : plainField s = true) :
    '\n' ∉ s.data ∧ '\r' ∉ s.data ∧ ',' ∉ s.data := by
  simp only [plainField, List.all_eq_true, Bool.and_eq_true, bne_iff_ne, ne_eq] at h
  refine ⟨fun hm => (h '\n' hm).1.1 rfl, fun hm => (h '\r' hm).1.2 rfl,
    fun hm => (h ',' hm).2 rfl⟩

theorem posOk_some {p : Position} (h : posOk (some p) = true) :
    i32Range p.x ∧ i32Range p.y := by
  simp only [posOk, Bool.and_eq_true, decide_eq_true_eq] at h
  exact h

theorem position_str_none_data : (position_str none).data = [] := rfl

theorem position_str_some_data (p : Position) :
    (position_str (some p)).data = ',' :: (charsOfInt p.x ++ ',' :: charsOfInt p.y) := by
  show ("," ++ intToStr p.x ++ "," ++ intToStr p.y).data = _
  rw [data_append, data_append, data_append]
  simp [intToStr]

theorem position_str_no_nl_cr {pos : Option Position} :
    '\n' ∉ (position_str pos).data ∧ '\r' ∉ (position_str pos).data := by
  rcases pos with _ | p
  · simp [position_str_none_data]
  · rw [position_str_some_data]
    constructor
    · intro hm
      simp only [List.mem_cons, List.mem_append] at hm
      rcases hm with h | h | h | h
      · exact absurd h (by decide)
      · exact charsOfInt_no_nl p.x h
      · exact absurd h (by decide)
      · exact charsOfInt_no_nl p.y h
    · intro hm
      simp only [List.mem_cons, List.mem_append] at hm
      rcases hm with h | h | h | h
      · exact absurd h (by decide)
      · exact charsOfInt_no_cr p.x h
      · exact absurd h (by decide)
      · exact charsOfInt_no_cr p.y h

theorem toStringD_comment_data (c : String) :
    (Event.toStringD (.Comment c)).data = '/' :: '/' :: c.data := by
  show ("//" ++ c).data = _
  rw [data_append]
  rfl

theorem toStringD_background_data (st : Integer) (b : Background) :
    (Event.toStringD (.NormalEvent st (.Background b))).data =
      '0' :: ',' :: (charsOfInt st ++ ',' :: (b.filename.data ++ (position_str b.position).data)) := by
  show ("0," ++ intToStr st ++ "," ++ b.filename ++ position_str b.position).data = _
  rw [data_append, data_append, data_append]
  simp [intToStr]

theorem toStringD_video_data (st : Integer) (v : Video) :
    (Event.toStringD (.NormalEvent st (.Video v))).data =
      (if v.short_hand then ['1'] else 'V' :: 'i' :: 'd' :: 'e' :: 'o' :: [])
        ++ ',' :: (charsOfInt st ++ ',' :: (v.filename.data ++ (position_str v.position).data)) := by
  show ((if v.short_hand then "1" else "Video") ++ "," ++ intToStr st ++ ","
      ++ v.filename ++ position_str v.position).data = _
  rw [data_append, data_append, data_append, data_append]
  rcases v.short_hand with _ | _ <;> simp [intToStr]

theorem toStringD_break_data (st : Integer) (b : Break) :
    (Event.toStringD (.NormalEvent st (.Break b))).data =
      (if b.short_hand then ['2'] else 'B' :: 'r' :: 'e' :: 'a' :: 'k' :: [])
        ++ ',' :: (charsOfInt st ++ ',' :: charsOfInt b.end_time) := by
  show ((if b.short_hand then "2" else "Break") ++ "," ++ intToStr st ++ ","
      ++ intToStr b.end_time).data = _
  rw [data_append, data_append, data_append]
  rcases b.short_hand with _ | _ <;> simp [intToStr]

theorem toStringD_colour_data (st : Integer) (t : ColourTransformation) :
    (Event.toStringD (.NormalEvent st (.ColourTransformation t))).data =
      '3' :: ',' :: (charsOfInt st ++ ',' :: (charsOfNat t.red ++ ',' :: (charsOfNat t.green
        ++ ',' :: charsOfNat t.blue))) := by
  show ("3," ++ intToStr st ++ "," ++ natToStr t.red ++ "," ++ natToStr t.green ++ ","
      ++ natToStr t.blue).data = _
  rw [data_append, data_append, data_append, data_append, data_append]
  simp [intToStr, natToStr]

/-! ## Lemmas: the routing steps of `processLine` -/

theorem isBlankLine_cons {c : Char} (cs : List Char) (h : c.isWhitespace = false) :
    isBlankLine (c :: cs) = false := by
  simp [isBlankLine, h]

theorem commentRest_none_of_head {c : Char} (cs : List Char) (h : c ≠ '/') :
    commentRest (c :: cs) = none := by
  unfold commentRest
  split
  · rename_i heq
    injection heq with h1 _
    exact absurd h1 h
  · rfl

theorem countIndent_cons {c : Char} (cs : List Char) (h : ¬(c = ' ' ∨ c = '_')) :
    countIndent (c :: cs) = 0 := by
  simp [countIndent, List.takeWhile_cons, h]

theorem countIndent_cons_pos {c : Char} (cs : List Char) (h : c = ' ' ∨ c = '_') :
    0 < countIndent (c :: cs) := by
  simp [countIndent, List.takeWhile_cons, h]

theorem objectFromStr_unknown {l : List Char}
    (h₁ : takeField l ≠ 'S' :: 'p' :: 'r' :: 'i' :: 't' :: 'e' :: [])
    (h₂ : takeField l ≠ 'A' :: 'n' :: 'i' :: 'm' :: 'a' :: 't' :: 'i' :: 'o' :: 'n' :: []) :
    Object.fromStrCh l = .error (.UnknownObjectType (String.mk (takeField l))) := by
  unfold Object.fromStrCh
  rw [if_neg h₁, if_neg h₂]

/-- A zero-indented, non-blank, non-comment line whose object parse fails
with `UnknownObjectType` takes the normal-event fallback path. -/
theorem processLine_fallback {l : List Char} (evs : List Event) (idx : Nat)
    (h0 : isBlankLine l = false) (h1 : commentRest l = none) (h2 : countIndent l = 0)
    {tok : String} (h3 : Object.fromStrCh l = .error (.UnknownObjectType tok)) :
    processLine evs idx l = normalEventFallback evs idx l := by
  unfold processLine
  rw [h0, h1]
  simp only [Bool.false_eq_true, if_false, h2]
  rw [if_neg (by omega), h3]
  rfl

/-- A zero-indented, non-blank, non-comment line whose object parse fails
with anything other than `UnknownObjectType` surfaces that object error
immediately, wrapped with the line index. -/
theorem processLine_object_error {l : List Char} (evs : List Event) (idx : Nat)
    (h0 : isBlankLine l = false) (h1 : commentRest l = none) (h2 : countIndent l = 0)
    {e : ObjectParseError} (h3 : Object.fromStrCh l = .error e)
    (h4 : isUnknownObjectType e = false) :
    processLine evs idx l = .error ⟨.StoryboardObjectParseError e, idx⟩ := by
  unfold processLine
  rw [h0, h1]
  simp only [Bool.false_eq_true, if_false, h2]
  rw [if_neg (by omega), h3]
  simp [h4]

/-- A zero-indented, non-blank, non-comment line whose object parse
succeeds appends the storyboard object. -/
theorem processLine_object_ok {l : List Char} (evs : List Event) (idx : Nat)
    (h0 : isBlankLine l = false) (h1 : commentRest l = none) (h2 : countIndent l = 0)
    {obj : Object} (h3 : Object.fromStrCh l = .ok obj) :
    processLine evs idx l = .ok (evs ++ [.Storyboard obj]) := by
  unfold processLine
  rw [h0, h1]
  simp only [Bool.false_eq_true, if_false, h2]
  rw [if_neg (by omega), h3]

/-- A non-blank comment line appends a `Comment` event. -/
theorem processLine_comment {l rest : List Char} (evs : List Event) (idx : Nat)
    (h0 : isBlankLine l = false) (h1 : commentRest l = some rest) :
    processLine evs idx l = .ok (evs ++ [.Comment (String.mk rest)]) := by
  unfold processLine
  rw [h0, h1]
  rfl

/-- An indented, non-blank, non-comment line is routed to the last event
when that event is a storyboard object, and fails with
`StoryboardCmdWithNoSprite` otherwise. -/
theorem processLine_indented {l : List Char} (evs : List Event) (idx : Nat)
    (h0 : isBlankLine l = false) (h1 : commentRest l = none) (h2 : 0 < countIndent l) :
    processLine evs idx l =
      match evs.getLast? with
      | some (.Storyboard sprite) =>
        match Command.fromStrCh l with
        | .error e => .error ⟨.CommandParseError e, idx⟩
        | .ok cmd =>
          match tryPushCmd sprite cmd (countIndent l) with
          | .error e => .error ⟨.CommandPushError e, idx⟩
          | .ok sprite' => .ok (evs.dropLast ++ [.Storyboard sprite'])
      | _ => .error ⟨.StoryboardCmdWithNoSprite, idx⟩ := by
  unfold processLine
  rw [h0, h1]
  simp only [Bool.false_eq_true, if_false]
  rw [if_pos h2]

/-! ## Lemmas: normal-event line round trips -/

theorem epCoordinates_nil : epCoordinates [] = .ok none := rfl

theorem epCoordinates_some {p : Position} (hx : i32Range p.x) (hy : i32Range p.y) :
    epCoordinates (',' :: (charsOfInt p.x ++ ',' :: charsOfInt p.y)) = .ok (some p) := by
  unfold epCoordinates
  rw [if_neg (by simp)]
  simp only [eatComma]
  rw [(takeField_append _ (charsOfInt_no_comma p.x)).1, parseI32_charsOfInt hx,
    (takeField_append _ (charsOfInt_no_comma p.x)).2]
  simp only [eatComma]
  rw [parseI32_charsOfInt hy]

/-- The tail of every serialized normal-event line after its header comma:
`<start>` then `,` then the payload; both the probe and the params parser
read the start-time field off it. -/
theorem field_split_start {st : Integer} (tail : List Char)
    (htail : tail = [] ∨ ∃ t', tail = ',' :: t') :
    takeField (charsOfInt st ++ tail) = charsOfInt st ∧
      dropField (charsOfInt st ++ tail) = tail := by
  rcases htail with rfl | ⟨t', rfl⟩
  · simpa using takeField_no_comma (charsOfInt_no_comma st)
  · exact takeField_append t' (charsOfInt_no_comma st)

theorem miniParse_line {h : List Char} (hnc : ',' ∉ h) {st : Integer} (hst : i32Range st)
    (tail : List Char) (htail : tail = [] ∨ ∃ t', tail = ',' :: t') :
    miniParse (h ++ ',' :: (charsOfInt st ++ tail)) = .ok st := by
  unfold miniParse
  rw [show dropField (h ++ ',' :: (charsOfInt st ++ tail)) = ',' :: (charsOfInt st ++ tail) from
    (takeField_append _ hnc).2]
  simp only [eatComma]
  rw [(field_split_start tail htail).1, parseI32_charsOfInt hst]

theorem epBackground_line {st : Integer} (f : String) (pos : Option Position)
    (hf : ',' ∉ f.data) (hpos : posOk pos = true) :
    epBackground (',' :: (charsOfInt st ++ ',' :: (f.data ++ (position_str pos).data))) =
      .ok (.Background ⟨f, pos⟩) := by
  unfold epBackground
  simp only [eatComma]
  rw [(field_split_start (',' :: (f.data ++ (position_str pos).data)) (by simp)).2]
  simp only [eatComma]
  rcases pos with _ | p
  · rw [position_str_none_data, List.append_nil, (takeField_no_comma hf).1,
      (takeField_no_comma hf).2, epCoordinates_nil, string_mk_data]
  · obtain ⟨hx, hy⟩ := posOk_some hpos
    rw [position_str_some_data, (takeField_append _ hf).1, (takeField_append _ hf).2,
      epCoordinates_some hx hy, string_mk_data]

theorem epVideo_line (short : Bool) {st : Integer} (f : String) (pos : Option Position)
    (hf : ',' ∉ f.data) (hpos : posOk pos = true) :
    epVideo short (',' :: (charsOfInt st ++ ',' :: (f.data ++ (position_str pos).data))) =
      .ok (.Video ⟨f, pos, short⟩) := by
  unfold epVideo
  simp only [eatComma]
  rw [(field_split_start (',' :: (f.data ++ (position_str pos).data)) (by simp)).2]
  simp only [eatComma]
  rcases pos with _ | p
  · rw [position_str_none_data, List.append_nil, (takeField_no_comma hf).1,
      (takeField_no_comma hf).2, epCoordinates_nil, string_mk_data]
  · obtain ⟨hx, hy⟩ := posOk_some hpos
    rw [position_str_some_data, (takeField_append _ hf).1, (takeField_append _ hf).2,
      epCoordinates_some hx hy, string_mk_data]

theorem epBreak_line (short : Bool) {st et : Integer} (het : i32Range et) :
    epBreak short (',' :: (charsOfInt st ++ ',' :: charsOfInt et)) =
      .ok (.Break ⟨et, short⟩) := by
  unfold epBreak
  simp only [eatComma]
  rw [(field_split_start (',' :: charsOfInt et) (by simp)).2]
  simp only [eatComma]
  rw [parseI32_charsOfInt het]

theorem epColour_line {st : Integer} {r g b : Nat} (hr : r ≤ 255) (hg : g ≤ 255)
    (hb : b ≤ 255) :
    epColour (',' :: (charsOfInt st ++ ',' :: (charsOfNat r ++ ',' :: (charsOfNat g
      ++ ',' :: charsOfNat b)))) = .ok (.ColourTransformation ⟨r, g, b⟩) := by
  unfold epColour
  simp only [eatComma]
  rw [(field_split_start (',' :: (charsOfNat r ++ ',' :: (charsOfNat g ++ ',' :: charsOfNat b)))
    (by simp)).2]
  simp only [eatComma]
  rw [(takeField_append _ (charsOfNat_no_comma r)).1, parseU8_charsOfNat hr,
    (takeField_append _ (charsOfNat_no_comma r)).2]
  simp only [eatComma]
  rw [(takeField_append _ (charsOfNat_no_comma g)).1, parseU8_charsOfNat hg,
    (takeField_append _ (charsOfNat_no_comma g)).2]
  simp only [eatComma]
  rw [parseU8_charsOfNat hb]

theorem takeField_cons_ne {c : Char} (l : List Char) (h : c ≠ ',') :
    takeField (c :: l) = c :: takeField l := by
  simp [takeField, List.takeWhile_cons, h]

theorem takeField_cons_comma (l : List Char) : takeField (',' :: l) = [] := by
  simp [takeField, List.takeWhile_cons]

theorem tagP_nil (l : List Char) : tagP [] l = some l := rfl

theorem tagP_cons_self (c : Char) (ps cs : List Char) :
    tagP (c :: ps) (c :: cs) = tagP ps cs := by
  simp [tagP]

theorem tagP_cons_ne {a p : Char} (ps cs : List Char) (h : a ≠ p) :
    tagP (p :: ps) (a :: cs) = none := by
  simp [tagP, h]

/-- Each serialized well-formed event line re-parses, through the full
`processLine` routing, to exactly the event it came from. -/
theorem processLine_wf {e : Event} (hwf : wfEvent e = true) (evs : List Event) (idx : Nat) :
    processLine evs idx (Event.toStringD e).data = .ok (evs ++ [e]) := by
  cases e with
  | Comment c =>
    rw [toStringD_comment_data,
      @processLine_comment ('/' :: '/' :: c.data) c.data evs idx
        (isBlankLine_cons _ (by decide)) rfl, string_mk_data]
  | Storyboard obj => simp [wfEvent] at hwf
  | NormalEvent st params =>
    cases params with
    | Background b =>
      simp only [wfEvent, Bool.and_eq_true, decide_eq_true_eq] at hwf
      obtain ⟨hst, hf, hpos⟩ := hwf
      have hfnc := (plainField_spec hf).2.2
      rw [toStringD_background_data]
      have htf : takeField ('0' :: ',' :: (charsOfInt st ++ ',' ::
          (b.filename.data ++ (position_str b.position).data))) = ['0'] := by
        rw [takeField_cons_ne _ (by decide), takeField_cons_comma]
      rw [processLine_fallback evs idx (isBlankLine_cons _ (by decide))
        (commentRest_none_of_head _ (by decide)) (countIndent_cons _ (by decide))
        (objectFromStr_unknown (by rw [htf]; decide) (by rw [htf]; decide))]
      unfold normalEventFallback
      have hm := miniParse_line (h := ['0']) (by decide) hst
        (',' :: (b.filename.data ++ (position_str b.position).data)) (Or.inr ⟨_, rfl⟩)
      rw [List.singleton_append] at hm
      rw [hm]
      unfold EventParams.fromStrCh
      rw [tagP_cons_self, tagP_nil]
      dsimp only
      rw [epBackground_line b.filename b.position hfnc hpos]
    | Video v =>
      simp only [wfEvent, Bool.and_eq_true, decide_eq_true_eq] at hwf
      obtain ⟨hst, hf, hpos⟩ := hwf
      have hfnc := (plainField_spec hf).2.2
      rw [toStringD_video_data]
      rcases hsh : v.short_hand with _ | _
      · simp only [hsh, Bool.false_eq_true, if_false, List.cons_append, List.nil_append]
        have htf : takeField ('V' :: 'i' :: 'd' :: 'e' :: 'o' :: ',' :: (charsOfInt st ++ ',' ::
            (v.filename.data ++ (position_str v.position).data))) =
            'V' :: 'i' :: 'd' :: 'e' :: 'o' :: [] := by
          rw [takeField_cons_ne _ (by decide), takeField_cons_ne _ (by decide),
            takeField_cons_ne _ (by decide), takeField_cons_ne _ (by decide),
            takeField_cons_ne _ (by decide), takeField_cons_comma]
        rw [processLine_fallback evs idx (isBlankLine_cons _ (by decide))
          (commentRest_none_of_head _ (by decide)) (countIndent_cons _ (by decide))
          (objectFromStr_unknown (by rw [htf]; decide) (by rw [htf]; decide))]
        unfold normalEventFallback
        have hm := miniParse_line (h := 'V' :: 'i' :: 'd' :: 'e' :: 'o' :: []) (by decide) hst
          (',' :: (v.filename.data ++ (position_str v.position).data)) (Or.inr ⟨_, rfl⟩)
        simp only [List.cons_append, List.nil_append] at hm
        rw [hm]
        unfold EventParams.fromStrCh
        rw [tagP_cons_ne _ _ (by decide), tagP_cons_ne _ _ (by decide), tagP_cons_self,
          tagP_cons_self, tagP_cons_self, tagP_cons_self, tagP_cons_self, tagP_nil]
        dsimp only
        have hv : Video.mk v.filename v.position false = v := by rw [← hsh]
        rw [epVideo_line false v.filename v.position hfnc hpos, hv]
      · simp only [hsh, if_true, List.cons_append, List.nil_append]
        have htf : takeField ('1' :: ',' :: (charsOfInt st ++ ',' ::
            (v.filename.data ++ (position_str v.position).data))) = ['1'] := by
          rw [takeField_cons_ne _ (by decide), takeField_cons_comma]
        rw [processLine_fallback evs idx (isBlankLine_cons _ (by decide))
          (commentRest_none_of_head _ (by decide)) (countIndent_cons _ (by decide))
          (objectFromStr_unknown (by rw [htf]; decide) (by rw [htf]; decide))]
        unfold normalEventFallback
        have hm := miniParse_line (h := ['1']) (by decide) hst
          (',' :: (v.filename.data ++ (position_str v.position).data)) (Or.inr ⟨_, rfl⟩)
        rw [List.singleton_append] at hm
        rw [hm]
        unfold EventParams.fromStrCh
        rw [tagP_cons_ne _ _ (by decide), tagP_cons_self, tagP_nil]
        dsimp only
        have hv : Video.mk v.filename v.position true = v := by rw [← hsh]
        rw [epVideo_line true v.filename v.position hfnc hpos, hv]
    | Break b =>
      simp only [wfEvent, Bool.and_eq_true, decide_eq_true_eq] at hwf
      obtain ⟨hst, het⟩ := hwf
      rw [toStringD_break_data]
      rcases hsh : b.short_hand with _ | _
      · simp only [hsh, Bool.false_eq_true, if_false, List.cons_append, List.nil_append]
        have htf : takeField ('B' :: 'r' :: 'e' :: 'a' :: 'k' :: ',' :: (charsOfInt st ++ ',' ::
            charsOfInt b.end_time)) = 'B' :: 'r' :: 'e' :: 'a' :: 'k' :: [] := by
          rw [takeField_cons_ne _ (by decide), takeField_cons_ne _ (by decide),
            takeField_cons_ne _ (by decide), takeField_cons_ne _ (by decide),
            takeField_cons_ne _ (by decide), takeField_cons_comma]
        rw [processLine_fallback evs idx (isBlankLine_cons _ (by decide))
          (commentRest_none_of_head _ (by decide)) (countIndent_cons _ (by decide))
          (objectFromStr_unknown (by rw [htf]; decide) (by rw [htf]; decide))]
        unfold normalEventFallback
        have hm := miniParse_line (h := 'B' :: 'r' :: 'e' :: 'a' :: 'k' :: []) (by decide) hst
          (',' :: charsOfInt b.end_time) (Or.inr ⟨_, rfl⟩)
        simp only [List.cons_append, List.nil_append] at hm
        rw [hm]
        unfold EventParams.fromStrCh
        rw [tagP_cons_ne _ _ (by decide), tagP_cons_ne _ _ (by decide),
          tagP_cons_ne _ _ (by decide), tagP_cons_ne _ _ (by decide), tagP_cons_self,
          tagP_cons_self, tagP_cons_self, tagP_cons_self, tagP_cons_self, tagP_nil]
        dsimp only
        have hb2 : Break.mk b.end_time false = b := by rw [← hsh]
        rw [epBreak_line false het, hb2]
      · simp only [hsh, if_true, List.cons_append, List.nil_append]
        have htf : takeField ('2' :: ',' :: (charsOfInt st ++ ',' :: charsOfInt b.end_time)) =
            ['2'] := by
          rw [takeField_cons_ne _ (by decide), takeField_cons_comma]
        rw [processLine_fallback evs idx (isBlankLine_cons _ (by decide))
          (commentRest_none_of_head _ (by decide)) (countIndent_cons _ (by decide))
          (objectFromStr_unknown (by rw [htf]; decide) (by rw [htf]; decide))]
        unfold normalEventFallback
        have hm := miniParse_line (h := ['2']) (by decide) hst
          (',' :: charsOfInt b.end_time) (Or.inr ⟨_, rfl⟩)
        rw [List.singleton_append] at hm
        rw [hm]
        unfold EventParams.fromStrCh
        rw [tagP_cons_ne _ _ (by decide), tagP_cons_ne _ _ (by decide),
          tagP_cons_ne _ _ (by decide), tagP_cons_self, tagP_nil]
        dsimp only
        have hb2 : Break.mk b.end_time true = b := by rw [← hsh]
        rw [epBreak_line true het, hb2]
    | ColourTransformation t =>
      simp only [wfEvent, Bool.and_eq_true, decide_eq_true_eq] at hwf
      obtain ⟨hst, ⟨hr, hg⟩, hb⟩ := hwf
      rw [toStringD_colour_data]
      have htf : takeField ('3' :: ',' :: (charsOfInt st ++ ',' :: (charsOfNat t.red ++ ',' ::
          (charsOfNat t.green ++ ',' :: charsOfNat t.blue)))) = ['3'] := by
        rw [takeField_cons_ne _ (by decide), takeField_cons_comma]
      rw [processLine_fallback evs idx (isBlankLine_cons _ (by decide))
        (commentRest_none_of_head _ (by decide)) (countIndent_cons _ (by decide))
        (objectFromStr_unknown (by rw [htf]; decide) (by rw [htf]; decide))]
      unfold normalEventFallback
      have hm := miniParse_line (h := ['3']) (by decide) hst
        (',' :: (charsOfNat t.red ++ ',' :: (charsOfNat t.green ++ ',' :: charsOfNat t.blue)))
        (Or.inr ⟨_, rfl⟩)
      rw [List.singleton_append] at hm
      rw [hm]
      unfold EventParams.fromStrCh
      rw [tagP_cons_ne _ _ (by decide), tagP_cons_ne _ _ (by decide),
        tagP_cons_ne _ _ (by decide), tagP_cons_ne _ _ (by decide), tagP_cons_ne _ _ (by decide),
        tagP_cons_self, tagP_nil]
      dsimp only
      rw [epColour_line (by omega) (by omega) (by omega)]

/-- Membership in a two-way branch of concrete tag lists. -/
theorem mem_if_tag {c : Char} {b : Bool} {l1 l2 : List Char}
    (h : c ∈ (if b then l1 else l2)) : c ∈ l1 ∨ c ∈ l2 := by
  rcases b with _ | _
  · exact Or.inr (by simpa using h)
  · exact Or.inl (by simpa using h)

/-- Serialized well-formed event lines are single lines: no embedded
newline or carriage return, and never empty. -/
theorem toStringD_line_ok {e : Event} (hwf : wfEvent e = true) :
    '\n' ∉ (Event.toStringD e).data ∧ '\r' ∉ (Event.toStringD e).data ∧
      (Event.toStringD e).data ≠ [] := by
  cases e with
  | Comment c =>
    obtain ⟨h1, h2⟩ := noNlCr_spec (by simpa [wfEvent] using hwf)
    rw [toStringD_comment_data]
    refine ⟨?_, ?_, by simp⟩
    · intro hm
      simp only [List.mem_cons] at hm
      rcases hm with h | h | h
      · exact absurd h (by decide)
      · exact absurd h (by decide)
      · exact h1 h
    · intro hm
      simp only [List.mem_cons] at hm
      rcases hm with h | h | h
      · exact absurd h (by decide)
      · exact absurd h (by decide)
      · exact h2 h
  | Storyboard obj => simp [wfEvent] at hwf
  | NormalEvent st params =>
    cases params with
    | Background b =>
      simp only [wfEvent, Bool.and_eq_true, decide_eq_true_eq] at hwf
      obtain ⟨hst, hf, hpos⟩ := hwf
      obtain ⟨hfn, hfr, _⟩ := plainField_spec hf
      rw [toStringD_background_data]
      refine ⟨?_, ?_, by simp⟩
      · intro hm
        simp only [List.mem_cons, List.mem_append] at hm
        rcases hm with h | h | h | h | h | h
        · exact absurd h (by decide)
        · exact absurd h (by decide)
        · exact charsOfInt_no_nl st h
        · exact absurd h (by decide)
        · exact hfn h
        · exact position_str_no_nl_cr.1 h
      · intro hm
        simp only [List.mem_cons, List.mem_append] at hm
        rcases hm with h | h | h | h | h | h
        · exact absurd h (by decide)
        · exact absurd h (by decide)
        · exact charsOfInt_no_cr st h
        · exact absurd h (by decide)
        · exact hfr h
        · exact position_str_no_nl_cr.2 h
    | Video v =>
      simp only [wfEvent, Bool.and_eq_true, decide_eq_true_eq] at hwf
      obtain ⟨hst, hf, hpos⟩ := hwf
      obtain ⟨hfn, hfr, _⟩ := plainField_spec hf
      rw [toStringD_video_data]
      refine ⟨?_, ?_, by rcases v.short_hand with _ | _ <;> simp⟩
      · intro hm
        simp only [List.mem_append, List.mem_cons] at hm
        rcases hm with h | h | h | h | h | h
        · rcases mem_if_tag h with h | h <;> exact absurd h (by decide)
        · exact absurd h (by decide)
        · exact charsOfInt_no_nl st h
        · exact absurd h (by decide)
        · exact hfn h
        · exact position_str_no_nl_cr.1 h
      · intro hm
        simp only [List.mem_append, List.mem_cons] at hm
        rcases hm with h | h | h | h | h | h
        · rcases mem_if_tag h with h | h <;> exact absurd h (by decide)
        · exact absurd h (by decide)
        · exact charsOfInt_no_cr st h
        · exact absurd h (by decide)
        · exact hfr h
        · exact position_str_no_nl_cr.2 h
    | Break b =>
      simp only [wfEvent, Bool.and_eq_true, decide_eq_true_eq] at hwf
      obtain ⟨hst, het⟩ := hwf
      rw [toStringD_break_data]
      refine ⟨?_, ?_, by rcases b.short_hand with _ | _ <;> simp⟩
      · intro hm
        simp only [List.mem_append, List.mem_cons] at hm
        rcases hm with h | h | h | h | h
        · rcases mem_if_tag h with h | h <;> exact absurd h (by decide)
        · exact absurd h (by decide)
        · exact charsOfInt_no_nl st h
        · exact absurd h (by decide)
        · exact charsOfInt_no_nl b.end_time h
      · intro hm
        simp only [List.mem_append, List.mem_cons] at hm
        rcases hm with h | h | h | h | h
        · rcases mem_if_tag h with h | h <;> exact absurd h (by decide)
        · exact absurd h (by decide)
        · exact charsOfInt_no_cr st h
        · exact absurd h (by decide)
        · exact charsOfInt_no_cr b.end_time h
    | ColourTransformation t =>
      rw [toStringD_colour_data]
      refine ⟨?_, ?_, by simp⟩
      · intro hm
        simp only [List.mem_cons, List.mem_append] at hm
        rcases hm with h | h | h | h | h | h | h | h | h
        · exact absurd h (by decide)
        · exact absurd h (by decide)
        · exact charsOfInt_no_nl st h
        · exact absurd h (by decide)
        · exact charsOfNat_no_nl t.red h
        · exact absurd h (by decide)
        · exact charsOfNat_no_nl t.green h
        · exact absurd h (by decide)
        · exact charsOfNat_no_nl t.blue h
      · intro hm
        simp only [List.mem_cons, List.mem_append] at hm
        rcases hm with h | h | h | h | h | h | h | h | h
        · exact absurd h (by decide)
        · exact absurd h (by decide)
        · exact charsOfInt_no_cr st h
        · exact absurd h (by decide)
        · exact charsOfNat_no_cr t.red h
        · exact absurd h (by decide)
        · exact charsOfNat_no_cr t.green h
        · exact absurd h (by decide)
        · exact charsOfNat_no_cr t.blue h

/-- Running the line loop over the serialized lines of well-formed events
appends exactly those events, from any starting state and index. -/
theorem runLines_wf (evs' : List Event) : ∀ (pre : List Event) (idx : Nat),
    (∀ e ∈ evs', wfEvent e = true) →
    runLines pre idx (evs'.map fun e => (Event.toStringD e).data) = .ok (pre ++ evs') := by
  induction evs' with
  | nil => intro pre idx _; simp [runLines]
  | cons e rest ih =>
    intro pre idx h
    simp only [List.map_cons, runLines]
    rw [processLine_wf (h e (by simp)) pre idx]
    dsimp only
    rw [ih (pre ++ [e]) (idx + 1) (fun x hx => h x (by simp [hx]))]
    simp

/-! ## Claim C1 -/

/-- C1 (amended): for every version `v` and every text `t` produced by this
engine's own serializer (`Events::to_string`) from an `Events` value whose
events are comments without embedded newlines and normal events with
comma-free and newline-free filenames and in-range numeric fields, parsing
`t` back (`Events::from_str`) succeeds and re-serializing the result yields
exactly `t` — the round-trip law `serialize(parse(t, v), v) = t` on such
serializations, at any fixed version. -/
theorem C1_round_trip_on_wf_serializations (evs : List Event) (v : Nat) (t : String)
    (hwf : ∀ e ∈ evs, wfEvent e = true)
    (hser : Events.toString ⟨evs⟩ v = some t) :
    ∃ evs', Events.fromStr t v = .ok (some evs') ∧ Events.toString evs' v = some t := by
  refine ⟨⟨evs⟩, ?_, hser⟩
  have ht : t = joinStrNl (List.map Event.toStringD evs) := by
    simpa [Events.toString] using hser.symm
  unfold Events.fromStr
  rw [ht, joinStrNl_data, List.map_map]
  have hcomp : (String.data ∘ Event.toStringD) = fun e => (Event.toStringD e).data := rfl
  rw [hcomp]
  have hlines : rustLines (joinLines (List.map (fun e => (Event.toStringD e).data) evs))
      = List.map (fun e => (Event.toStringD e).data) evs := by
    apply rustLines_joinLines
    intro l hl
    obtain ⟨e, he, rfl⟩ := List.mem_map.1 hl
    exact toStringD_line_ok (hwf e he)
  rw [hlines, runLines_wf evs [] 0 hwf]
  simp

/-- C1 witness: a concrete serializer output (a comment plus a break event
at version 14) on which the round-trip theorem applies. -/
theorem C1_round_trip_witness :
    (∀ e ∈ ([.Comment "hi", .NormalEvent 100 (.Break ⟨163, true⟩)] : List Event),
      wfEvent e = true) ∧
    Events.toString ⟨[.Comment "hi", .NormalEvent 100 (.Break ⟨163, true⟩)]⟩ 14 =
      some "//hi\n2,100,163" ∧
    ∃ evs', Events.fromStr "//hi\n2,100,163" 14 = .ok (some evs') ∧
      Events.toString evs' 14 = some "//hi\n2,100,163" :=
  ⟨by decide, by decide,
    C1_round_trip_on_wf_serializations [.Comment "hi", .NormalEvent 100 (.Break ⟨163, true⟩)]
      14 "//hi\n2,100,163" (by decide) (by decide)⟩

/-- C1 counterexample: the claim as stated fails.  The serializer output of
`Events([Comment("a\n b")])` at version 14 is the text `"//a\n b"`, which is
therefore a valid serialization at that version, yet parsing it back fails
(`StoryboardCmdWithNoSprite` at physical line 1), so
`serialize(parse(t, v), v) = t` does not hold for it. -/
theorem C1_counterexample :
    Events.toString ⟨[.Comment "a\n b"]⟩ 14 = some "//a\n b" ∧
    Events.fromStr "//a\n b" 14 = .error ⟨.StoryboardCmdWithNoSprite, 1⟩ := by
  constructor
  · decide
  · rfl

/-! ## Claim C9 -/

/-- C9 (amended): at version 14, `0,0,bg2.jpg,0,1` parses to a Background
event with position `(0,1)` and re-serializes identically, and
`0,0,bg2.jpg,0,0` round-trips to the same text even though `(0,0)` is the
default; a line with omitted coordinates, however, parses to an absent
position (`None`, not an implicit `(0,0)`) and re-serializes with no
coordinate suffix. -/
theorem C9_background_position_v14 :
    Events.fromStr "0,0,bg2.jpg,0,1" 14 =
      .ok (some ⟨[.NormalEvent 0 (.Background ⟨"bg2.jpg", some ⟨0, 1⟩⟩)]⟩) ∧
    Events.toString ⟨[.NormalEvent 0 (.Background ⟨"bg2.jpg", some ⟨0, 1⟩⟩)]⟩ 14 =
      some "0,0,bg2.jpg,0,1" ∧
    Events.fromStr "0,0,bg2.jpg,0,0" 14 =
      .ok (some ⟨[.NormalEvent 0 (.Background ⟨"bg2.jpg", some ⟨0, 0⟩⟩)]⟩) ∧
    Events.toString ⟨[.NormalEvent 0 (.Background ⟨"bg2.jpg", some ⟨0, 0⟩⟩)]⟩ 14 =
      some "0,0,bg2.jpg,0,0" ∧
    Events.fromStr "0,0,bg2.jpg" 14 =
      .ok (some ⟨[.NormalEvent 0 (.Background ⟨"bg2.jpg", none⟩)]⟩) ∧
    Events.toString ⟨[.NormalEvent 0 (.Background ⟨"bg2.jpg", none⟩)]⟩ 14 =
      some "0,0,bg2.jpg" := by
  refine ⟨rfl, by decide, rfl, by decide, rfl, by decide⟩

/-- C9 counterexample: a version-14 background line with omitted
coordinates parses to an absent position, not to an implicit `(0,0)`
position, and prints no coordinate pair when re-serialized. -/
theorem C9_counterexample :
    Events.fromStr "0,0,bg2.jpg" 14 =
      .ok (some ⟨[.NormalEvent 0 (.Background ⟨"bg2.jpg", none⟩)]⟩) ∧
    (none : Option Position) ≠ some ⟨0, 0⟩ ∧
    Events.toString ⟨[.NormalEvent 0 (.Background ⟨"bg2.jpg", none⟩)]⟩ 14 =
      some "0,0,bg2.jpg" := by
  refine ⟨rfl, by decide, by decide⟩

/-! ## Claim C4 -/

/-- C4 (amended): the versioned serializer
`ColourTransformation::to_string` yields `None` exactly at versions at
least 14 and emits the `3,<start>,<r>,<g>,<b>` line (with the legacy-offset
start time) below 14; the `Events`-level `Display` serializer, however,
emits the `3,...` line at every version, the version argument being
ignored. -/
theorem C4_colour_transformation_cutoff :
    (∀ (t : NormalEvent.ColourTransformation) (v : Nat),
      NormalEvent.ColourTransformation.toString t v = none ↔ 14 ≤ v) ∧
    (∀ (t : NormalEvent.ColourTransformation) (v : Nat), v < 14 →
      NormalEvent.ColourTransformation.toString t v =
        some ("3," ++ NormalEvent.time_to_string t.start_time v ++ "," ++ natToStr t.red
          ++ "," ++ natToStr t.green ++ "," ++ natToStr t.blue)) ∧
    (∀ (st : Integer) (t : ColourTransformation) (v : Nat),
      Events.toString ⟨[.NormalEvent st (.ColourTransformation t)]⟩ v =
        some ("3," ++ intToStr st ++ "," ++ natToStr t.red ++ "," ++ natToStr t.green
          ++ "," ++ natToStr t.blue)) := by
  refine ⟨?_, ?_, ?_⟩
  · intro t v
    unfold NormalEvent.ColourTransformation.toString
    split
    · rename_i h
      constructor
      · intro hc; exact absurd hc (by simp)
      · intro hc; omega
    · rename_i h
      constructor
      · intro _; omega
      · intro _; rfl
  · intro t v hv
    unfold NormalEvent.ColourTransformation.toString
    rw [if_pos hv]
  · intro st t v
    show some (joinStrNl [Event.toStringD (.NormalEvent st (.ColourTransformation t))]) = _
    rfl

/-- C4 witness: concrete instances of the cutoff behavior at versions 13
and 14. -/
theorem C4_colour_transformation_cutoff_witness :
    (NormalEvent.ColourTransformation.toString ⟨0, 1, 2, 3⟩ 14 = none ↔ 14 ≤ 14) ∧
    ((13 : Nat) < 14 ∧ NormalEvent.ColourTransformation.toString ⟨0, 1, 2, 3⟩ 13 =
      some ("3," ++ NormalEvent.time_to_string 0 13 ++ "," ++ natToStr 1 ++ ","
        ++ natToStr 2 ++ "," ++ natToStr 3)) ∧
    Events.toString ⟨[.NormalEvent 5 (.ColourTransformation ⟨1, 2, 3⟩)]⟩ 14 =
      some ("3," ++ intToStr 5 ++ "," ++ natToStr 1 ++ "," ++ natToStr 2 ++ ","
        ++ natToStr 3) :=
  ⟨C4_colour_transformation_cutoff.1 ⟨0, 1, 2, 3⟩ 14,
    ⟨by decide, C4_colour_transformation_cutoff.2.1 ⟨0, 1, 2, 3⟩ 13 (by decide)⟩,
    C4_colour_transformation_cutoff.2.2 5 ⟨1, 2, 3⟩ 14⟩

/-- C4 counterexample: serializing an `Events` value containing a
ColourTransformation at version 14 emits the `3,...` line (`Some`), not
`None` — the `Events`-level serializer ignores the version cutoff. -/
theorem C4_counterexample :
    Events.toString ⟨[.NormalEvent 0 (.ColourTransformation ⟨1, 2, 3⟩)]⟩ 14 =
      some "3,0,1,2,3" := by
  decide

/-! ## Claim C10 -/

/-- C10: `Events::from_str` never returns `Ok(None)`: every result is an
error or `Ok(Some(events))`; the empty string parses to
`Ok(Some(Events(vec![])))`, and blank (whitespace-only) lines contribute no
events and no errors. -/
theorem C10_from_str_total :
    (∀ (s : String) (v : Nat), Events.fromStr s v ≠ .ok none) ∧
    (∀ v : Nat, Events.fromStr "" v = .ok (some ⟨[]⟩)) ∧
    (∀ (evs : List Event) (idx : Nat) (l : List Char), isBlankLine l = true →
      processLine evs idx l = .ok evs) := by
  refine ⟨?_, ?_, ?_⟩
  · intro s v
    unfold Events.fromStr
    rcases runLines [] 0 (rustLines s.data) with e | evs <;> simp
  · intro v
    rfl
  · intro evs idx l h
    unfold processLine
    rw [h]
    rfl

/-- C10 witness: concrete instances, including a whitespace-only line
contributing nothing at any state. -/
theorem C10_from_str_total_witness :
    Events.fromStr "zzz" 14 ≠ .ok none ∧
    Events.fromStr "" 14 = .ok (some ⟨[]⟩) ∧
    isBlankLine "  ".data = true ∧
    processLine [] 5 "  ".data = .ok [] :=
  ⟨C10_from_str_total.1 "zzz" 14, C10_from_str_total.2.1 14, by decide,
    C10_from_str_total.2.2 [] 5 "  ".data (by decide)⟩

/-! ## Claim C5 -/

/-- C5: on every zero-indentation, non-blank, non-comment line, an
`UnknownObjectType` object-parse failure makes the parser retry the line as
a normal event, and the result is exactly the normal-event fallback's
(whose errors — probe or `EventParams` — are wrapped with the line index
and never mention the discarded object error); any other object-parse
failure is surfaced immediately, wrapped with the line index, without
attempting the normal-event parse.  Concretely, `"0,1,a\n\nzzz"` fails with
the normal-event error `MissingStartTime` at physical line 2 (the blank
line counts), not with the unknown-object error. -/
theorem C5_fallback_error_precedence :
    (∀ (evs : List Event) (idx : Nat) (l : List Char) (tok : String),
      isBlankLine l = false → commentRest l = none → countIndent l = 0 →
      Object.fromStrCh l = .error (.UnknownObjectType tok) →
      processLine evs idx l = normalEventFallback evs idx l) ∧
    (∀ (evs : List Event) (idx : Nat) (l : List Char) (e : ObjectParseError),
      isBlankLine l = false → commentRest l = none → countIndent l = 0 →
      Object.fromStrCh l = .error e → isUnknownObjectType e = false →
      processLine evs idx l = .error ⟨.StoryboardObjectParseError e, idx⟩) ∧
    Events.fromStr "0,1,a\n\nzzz" 14 = .error ⟨.MissingStartTime, 2⟩ := by
  refine ⟨?_, ?_, ?_⟩
  · intro evs idx l tok h0 h1 h2 h3
    exact processLine_fallback evs idx h0 h1 h2 h3
  · intro evs idx l e h0 h1 h2 h3 h4
    exact processLine_object_error evs idx h0 h1 h2 h3 h4
  · rfl

/-- C5 witness: `"zzz"` (unknown object token) takes the fallback path,
and `"Sprite"` (missing layer field) surfaces the object error
immediately. -/
theorem C5_fallback_error_precedence_witness :
    processLine [] 0 "zzz".data = normalEventFallback [] 0 "zzz".data ∧
    processLine [] 7 "Sprite".data =
      .error ⟨.StoryboardObjectParseError (.MissingField "layer"), 7⟩ :=
  ⟨C5_fallback_error_precedence.1 [] 0 "zzz".data "zzz" (by decide) (by decide) (by decide) rfl,
    C5_fallback_error_precedence.2.1 [] 7 "Sprite".data (.MissingField "layer") (by decide)
      (by decide) (by decide) rfl (by decide)⟩

/-! ## Claim C6 -/

/-- C6 (amended): an indented, non-blank, non-comment line fails with
`StoryboardCmdWithNoSprite` exactly when the immediately preceding event in
the output is not a storyboard object — not merely when no prior object
exists at all; when the immediately preceding event is a storyboard object,
the parsed command is attached to it (replacing the last event with the
updated object) and this error never occurs. -/
theorem C6_indented_line_routing :
    (∀ (evs : List Event) (idx : Nat) (l : List Char),
      isBlankLine l = false → commentRest l = none → 0 < countIndent l →
      (∀ obj : Object, evs.getLast? ≠ some (.Storyboard obj)) →
      processLine evs idx l = .error ⟨.StoryboardCmdWithNoSprite, idx⟩) ∧
    (∀ (evs : List Event) (idx : Nat) (l : List Char) (obj : Object),
      isBlankLine l = false → commentRest l = none → 0 < countIndent l →
      evs.getLast? = some (.Storyboard obj) →
      processLine evs idx l ≠ .error ⟨.StoryboardCmdWithNoSprite, idx⟩) ∧
    (∀ (evs : List Event) (idx : Nat) (l : List Char) (obj obj' : Object) (cmd : Command),
      isBlankLine l = false → commentRest l = none → 0 < countIndent l →
      evs.getLast? = some (.Storyboard obj) →
      Command.fromStrCh l = .ok cmd → tryPushCmd obj cmd (countIndent l) = .ok obj' →
      processLine evs idx l = .ok (evs.dropLast ++ [.Storyboard obj'])) := by
  refine ⟨?_, ?_, ?_⟩
  · intro evs idx l h0 h1 h2 hlast
    rw [processLine_indented evs idx h0 h1 h2]
    rcases hg : evs.getLast? with _ | ev
    · rfl
    · cases ev with
      | Storyboard obj => exact absurd hg (hlast obj)
      | Comment c => rfl
      | NormalEvent st p => rfl
  · intro evs idx l obj h0 h1 h2 hlast
    rw [processLine_indented evs idx h0 h1 h2, hlast]
    dsimp only
    rcases hc : Command.fromStrCh l with e | cmd
    · simp
    · dsimp only
      rcases hp : tryPushCmd obj cmd (countIndent l) with e | obj' <;> simp
  · intro evs idx l obj obj' cmd h0 h1 h2 hlast hcmd hpush
    rw [processLine_indented evs idx h0 h1 h2, hlast]
    dsimp only
    rw [hcmd]
    dsimp only
    rw [hpush]

/-- C6 witness: with a comment as the immediately preceding event the
routing fails (first part); with a sprite as the immediately preceding
event the command ` F,0,0,0,1` is attached to it at indentation 1 (third
part), and the no-sprite error cannot occur (second part). -/
theorem C6_indented_line_routing_witness :
    processLine [.Comment "c"] 3 " x".data = .error ⟨.StoryboardCmdWithNoSprite, 3⟩ ∧
    processLine [.Storyboard ⟨"0", "0", ⟨0, 0⟩, .Sprite "f", []⟩] 1 " F,0,0,0,1".data ≠
      .error ⟨.StoryboardCmdWithNoSprite, 1⟩ ∧
    processLine [.Storyboard ⟨"0", "0", ⟨0, 0⟩, .Sprite "f", []⟩] 1 " F,0,0,0,1".data =
      .ok [.Storyboard ⟨"0", "0", ⟨0, 0⟩, .Sprite "f", [.Other "F" ",0,0,0,1"]⟩] :=
  ⟨C6_indented_line_routing.1 [.Comment "c"] 3 " x".data (by decide) (by decide) (by decide)
      (by intro obj h; simp at h),
    C6_indented_line_routing.2.1 [.Storyboard ⟨"0", "0", ⟨0, 0⟩, .Sprite "f", []⟩] 1
      " F,0,0,0,1".data ⟨"0", "0", ⟨0, 0⟩, .Sprite "f", []⟩ (by decide) (by decide) (by decide)
      rfl,
    C6_indented_line_routing.2.2 [.Storyboard ⟨"0", "0", ⟨0, 0⟩, .Sprite "f", []⟩] 1
      " F,0,0,0,1".data ⟨"0", "0", ⟨0, 0⟩, .Sprite "f", []⟩
      ⟨"0", "0", ⟨0, 0⟩, .Sprite "f", [.Other "F" ",0,0,0,1"]⟩ (.Other "F" ",0,0,0,1")
      (by decide) (by decide) (by decide) rfl rfl rfl⟩

/-- C6 counterexample: a prior top-level object exists in the output, yet
an indented line still fails with `StoryboardCmdWithNoSprite` because the
immediately preceding event is a comment — refuting "fails exactly when no
prior top-level Object exists". -/
theorem C6_counterexample :
    Events.fromStr "Sprite,0,0,f,0,0" 14 =
      .ok (some ⟨[.Storyboard ⟨"0", "0", ⟨0, 0⟩, .Sprite "f", []⟩]⟩) ∧
    Events.fromStr "Sprite,0,0,f,0,0\n//c\n x" 14 =
      .error ⟨.StoryboardCmdWithNoSprite, 2⟩ := by
  exact ⟨rfl, rfl⟩

/-! ## Claim C2 -/

/-- C2 (amended): in the old version range 3..=4 the constant legacy offset
24 is added on parse and subtracted on serialize for Video (start time),
Break (start and end times) and ColourTransformation (start time),
uniformly for every input string and never conditionally on content
(stated as: parsing at an old version equals parsing at version 14 with
the offset added to the affected fields); Background, however, receives no
offset in either direction — its parse result is version-independent and
its serializer prints the stored start time raw at every version, while
the other kinds' serializers subtract the offset through
`time_to_string`. -/
theorem C2_offset_uniformity :
    (∀ (s : String) (v : Nat), 3 ≤ v → v ≤ 4 →
      NormalEvent.Break.fromStr s v = (NormalEvent.Break.fromStr s 14).map
        (Option.map fun b => ⟨b.start_time + NormalEvent.OLD_VERSION_TIME_OFFSET,
          b.end_time + NormalEvent.OLD_VERSION_TIME_OFFSET, b.short_hand⟩)) ∧
    (∀ (s : String) (v : Nat), 3 ≤ v → v ≤ 4 →
      NormalEvent.Video.fromStr s v = (NormalEvent.Video.fromStr s 14).map
        (Option.map fun w => ⟨w.start_time + NormalEvent.OLD_VERSION_TIME_OFFSET,
          w.file_name, w.position, w.commands, w.short_hand⟩)) ∧
    (∀ (s : String) (v : Nat), 3 ≤ v → v ≤ 4 →
      NormalEvent.ColourTransformation.fromStr s v =
        (NormalEvent.ColourTransformation.fromStr s 14).map
        (Option.map fun t => ⟨t.start_time + NormalEvent.OLD_VERSION_TIME_OFFSET,
          t.red, t.green, t.blue⟩)) ∧
    (∀ (s : String) (v v' : Nat),
      NormalEvent.Background.fromStr s v = NormalEvent.Background.fromStr s v') ∧
    (∀ (t : Integer) (v : Nat), 3 ≤ v → v ≤ 4 →
      NormalEvent.time_to_string t v = intToStr (t - NormalEvent.OLD_VERSION_TIME_OFFSET)) ∧
    (∀ (b : NormalEvent.Break) (v : Nat), 3 ≤ v → v ≤ 4 →
      NormalEvent.Break.toString b v = some ((if b.short_hand then "2" else "Break") ++ ","
        ++ intToStr (b.start_time - NormalEvent.OLD_VERSION_TIME_OFFSET) ++ ","
        ++ intToStr (b.end_time - NormalEvent.OLD_VERSION_TIME_OFFSET))) ∧
    (∀ (b : NormalEvent.Background) (v : Nat),
      NormalEvent.Background.to_string_cmd b v = some ("0," ++ intToStr b.start_time ++ ","
        ++ b.file_name ++ NormalEvent.position_str b.position)) := by
  have hoff : ∀ (t : Integer) (v : Nat), 3 ≤ v → v ≤ 4 →
      NormalEvent.addOffset t v = t + NormalEvent.OLD_VERSION_TIME_OFFSET := by
    intro t v h3 h4
    unfold NormalEvent.addOffset
    rw [if_pos ⟨h3, h4⟩]
  have hoff14 : ∀ t : Integer, NormalEvent.addOffset t 14 = t := by
    intro t
    unfold NormalEvent.addOffset
    rw [if_neg (by omega)]
  refine ⟨?_, ?_, ?_, ?_, ?_, ?_, ?_⟩
  · intro s v h3 h4
    unfold NormalEvent.Break.fromStr
    rcases tagP ['2'] s.data with _ | r <;>
      [rcases tagP ('B' :: 'r' :: 'e' :: 'a' :: 'k' :: []) s.data with _ | r; skip] <;>
      dsimp only <;> try rfl
    all_goals (rcases eatComma r with _ | r1 <;> dsimp only <;> try rfl)
    all_goals (rcases parseI32 (takeField r1) with _ | st <;> dsimp only <;> try rfl)
    all_goals (rcases eatComma (dropField r1) with _ | r2 <;> dsimp only <;> try rfl)
    all_goals (rcases parseI32 r2 with _ | et <;> dsimp only <;> try rfl)
    all_goals (rw [hoff st v h3 h4, hoff et v h3 h4, hoff14 st, hoff14 et]; rfl)
  · intro s v h3 h4
    unfold NormalEvent.Video.fromStr
    rcases tagP ['1'] s.data with _ | r <;>
      [rcases tagP ('V' :: 'i' :: 'd' :: 'e' :: 'o' :: []) s.data with _ | r; skip] <;>
      dsimp only <;> try rfl
    all_goals (rcases eatComma r with _ | r1 <;> dsimp only <;> try rfl)
    all_goals (rcases parseI32 (takeField r1) with _ | st <;> dsimp only <;> try rfl)
    all_goals (rcases eatComma (dropField r1) with _ | r2 <;> dsimp only <;> try rfl)
    all_goals (rcases (NormalEvent.fileNameAndPosition NormalEvent.ParseVideoError.MissingX
      NormalEvent.ParseVideoError.InvalidX NormalEvent.ParseVideoError.MissingY
      NormalEvent.ParseVideoError.InvalidY r2) with e | ⟨fn, pos⟩ <;> dsimp only <;> try rfl)
    all_goals (rw [hoff st v h3 h4, hoff14 st]; rfl)
  · intro s v h3 h4
    unfold NormalEvent.ColourTransformation.fromStr
    rcases tagP ['3'] s.data with _ | r <;> dsimp only <;> try rfl
    rcases eatComma r with _ | r1 <;> dsimp only <;> try rfl
    rcases parseI32 (takeField r1) with _ | st <;> dsimp only <;> try rfl
    rcases eatComma (dropField r1) with _ | r2 <;> dsimp only <;> try rfl
    rcases parseU8 (takeField r2) with _ | red <;> dsimp only <;> try rfl
    rcases eatComma (dropField r2) with _ | r3 <;> dsimp only <;> try rfl
    rcases parseU8 (takeField r3) with _ | green <;> dsimp only <;> try rfl
    rcases eatComma (dropField r3) with _ | r4 <;> dsimp only <;> try rfl
    rcases parseU8 r4 with _ | blue <;> dsimp only <;> try rfl
    rw [hoff st v h3 h4, hoff14 st]
    rfl
  · intro s v v'
    rfl
  · intro t v h3 h4
    unfold NormalEvent.time_to_string
    rw [if_pos ⟨h3, h4⟩]
  · intro b v h3 h4
    have hc : (3 ≤ v ∧ v ≤ 4) = True := eq_true ⟨h3, h4⟩
    simp only [NormalEvent.Break.toString, NormalEvent.time_to_string, hc, if_true]
  · intro b v
    rfl

/-- C2 witness: the offset relations and serializer behaviors at concrete
inputs and version 3. -/
theorem C2_offset_uniformity_witness :
    NormalEvent.Break.fromStr "2,100,163" 3 = (NormalEvent.Break.fromStr "2,100,163" 14).map
      (Option.map fun b => ⟨b.start_time + NormalEvent.OLD_VERSION_TIME_OFFSET,
        b.end_time + NormalEvent.OLD_VERSION_TIME_OFFSET, b.short_hand⟩) ∧
    NormalEvent.Background.fromStr "0,100,bg.jpg" 3 =
      NormalEvent.Background.fromStr "0,100,bg.jpg" 14 ∧
    NormalEvent.time_to_string 124 3 = intToStr (124 - NormalEvent.OLD_VERSION_TIME_OFFSET) ∧
    NormalEvent.Background.to_string_cmd ⟨100, "bg.jpg", none, []⟩ 3 =
      some ("0," ++ intToStr 100 ++ "," ++ "bg.jpg" ++ NormalEvent.position_str none) :=
  ⟨C2_offset_uniformity.1 "2,100,163" 3 (by decide) (by decide),
    C2_offset_uniformity.2.2.2.1 "0,100,bg.jpg" 3 14,
    C2_offset_uniformity.2.2.2.2.1 124 3 (by decide) (by decide),
    C2_offset_uniformity.2.2.2.2.2.2 ⟨100, "bg.jpg", none, []⟩ 3⟩

/-- C2 counterexample: the claim as stated fails for Background.  At
version 3 (inside the old range) `0,100,bg.jpg` parses to a Background
whose stored start time is 100 — the legacy offset 24 was not added — and
re-serializing prints the raw `0,100,bg.jpg` with nothing subtracted. -/
theorem C2_counterexample :
    NormalEvent.Background.fromStr "0,100,bg.jpg" 3 = .ok (some ⟨100, "bg.jpg", none, []⟩) ∧
    (100 : Integer) ≠ 100 + NormalEvent.OLD_VERSION_TIME_OFFSET ∧
    NormalEvent.Background.to_string_cmd ⟨100, "bg.jpg", none, []⟩ 3 = some "0,100,bg.jpg" := by
  refine ⟨rfl, by decide, by decide⟩

/-! ## Claim C3 -/

/-- C3: the line `2,100,163` parses at version 14 to
`Break{start_time: 100, end_time: 163}`; at every version in the old range
3..=4 the stored internal times are `100 + 24` and `163 + 24`, and
re-serializing at that same version prints exactly `2,100,163` again. -/
theorem C3_break_line_parse :
    NormalEvent.Break.fromStr "2,100,163" 14 = .ok (some ⟨100, 163, true⟩) ∧
    (∀ v : Nat, 3 ≤ v → v ≤ 4 →
      NormalEvent.Break.fromStr "2,100,163" v = .ok (some ⟨124, 187, true⟩) ∧
      NormalEvent.Break.toString ⟨124, 187, true⟩ v = some "2,100,163") := by
  refine ⟨rfl, ?_⟩
  intro v h3 h4
  interval_cases v
  · exact ⟨rfl, rfl⟩
  · exact ⟨rfl, rfl⟩

/-- C3 witness: the old-range statement instantiated at version 3. -/
theorem C3_break_line_parse_witness :
    (3 : Nat) ≤ 3 ∧ (3 : Nat) ≤ 4 ∧
    (NormalEvent.Break.fromStr "2,100,163" 3 = .ok (some ⟨124, 187, true⟩) ∧
      NormalEvent.Break.toString ⟨124, 187, true⟩ 3 = some "2,100,163") :=
  ⟨by decide, by decide, C3_break_line_parse.2 3 (by decide) (by decide)⟩

/-! ## Claim C7 -/

theorem except_isOk_error {ε α : Type} (e : ε) : (Except.error e : Except ε α).isOk = false := rfl

theorem pushGo_succ (togo : Nat) (cmds : List Command) (cmd : Command) (i a : Nat) :
    pushGo (togo + 1) cmds cmd i a =
      match cmds.getLast? with
      | some (.Loop st lc cs) =>
        if togo = 0 then .ok (cmds.dropLast ++ [.Loop st lc (cs ++ [cmd])])
        else
          match pushGo togo cs cmd (i + 1) a with
          | .error e => .error e
          | .ok cs' => .ok (cmds.dropLast ++ [.Loop st lc cs'])
      | some (.Trigger tr cs) =>
        if togo = 0 then .ok (cmds.dropLast ++ [.Trigger tr (cs ++ [cmd])])
        else
          match pushGo togo cs cmd (i + 1) a with
          | .error e => .error e
          | .ok cs' => .ok (cmds.dropLast ++ [.Trigger tr cs'])
      | _ => .error (.InvalidIndentation i a) := rfl

theorem pushGo_down : ∀ (togo : Nat) (cmds : List Command) (cmd cmd' : Command) (i a a' : Nat),
    1 ≤ togo → (pushGo (togo + 1) cmds cmd i a).isOk = true →
    (pushGo togo cmds cmd' i a').isOk = true := by
  intro togo
  induction togo with
  | zero => intro _ _ _ _ _ _ h; omega
  | succ t ih =>
    intro cmds cmd cmd' i a a' _ hok
    rw [pushGo_succ] at hok
    rw [pushGo_succ]
    rcases hg : cmds.getLast? with _ | c
    · rw [hg] at hok
      dsimp only at hok
      rw [except_isOk_error] at hok
      exact Bool.noConfusion hok
    · rw [hg] at hok
      cases c with
      | Loop st lc cs =>
        dsimp only at hok
        rw [if_neg (Nat.succ_ne_zero t)] at hok
        dsimp only
        rcases Nat.eq_zero_or_pos t with rfl | ht
        · rw [if_pos rfl]
          rfl
        · rw [if_neg (by omega)]
          rcases hrec : pushGo (t + 1) cs cmd (i + 1) a with e | cs'
          · rw [hrec] at hok
            dsimp only at hok
            rw [except_isOk_error] at hok
            exact Bool.noConfusion hok
          · have hr := ih cs cmd cmd' (i + 1) a a' ht (by rw [hrec]; rfl)
            rcases hrec' : pushGo t cs cmd' (i + 1) a' with e | cs2
            · rw [hrec'] at hr
              rw [except_isOk_error] at hr
              exact Bool.noConfusion hr
            · rfl
      | Trigger tr cs =>
        dsimp only at hok
        rw [if_neg (Nat.succ_ne_zero t)] at hok
        dsimp only
        rcases Nat.eq_zero_or_pos t with rfl | ht
        · rw [if_pos rfl]
          rfl
        · rw [if_neg (by omega)]
          rcases hrec : pushGo (t + 1) cs cmd (i + 1) a with e | cs'
          · rw [hrec] at hok
            dsimp only at hok
            rw [except_isOk_error] at hok
            exact Bool.noConfusion hok
          · have hr := ih cs cmd cmd' (i + 1) a a' ht (by rw [hrec]; rfl)
            rcases hrec' : pushGo t cs cmd' (i + 1) a' with e | cs2
            · rw [hrec'] at hr
              rw [except_isOk_error] at hr
              exact Bool.noConfusion hr
            · rfl
      | Other k r =>
        dsimp only at hok
        rw [except_isOk_error] at hok
        exact Bool.noConfusion hok

theorem pushGo_error_shape : ∀ (togo : Nat) (cmds : List Command) (cmd : Command)
    (i a : Nat) (e : CommandPushError), 1 ≤ togo →
    pushGo togo cmds cmd i a = .error e →
    ∃ exp, e = .InvalidIndentation exp a ∧ i ≤ exp ∧ exp < i + togo := by
  intro togo
  induction togo with
  | zero => intro _ _ _ _ _ h; omega
  | succ t ih =>
    intro cmds cmd i a e _ herr
    rw [pushGo_succ] at herr
    rcases hg : cmds.getLast? with _ | c
    · rw [hg] at herr
      dsimp only at herr
      injection herr with h
      exact ⟨i, h.symm, le_refl i, by omega⟩
    · rw [hg] at herr
      cases c with
      | Loop st lc cs =>
        dsimp only at herr
        rcases Nat.eq_zero_or_pos t with rfl | ht
        · rw [if_pos rfl] at herr
          exact absurd herr (by simp)
        · rw [if_neg (by omega)] at herr
          rcases hrec : pushGo t cs cmd (i + 1) a with e' | cs'
          · rw [hrec] at herr
            dsimp only at herr
            injection herr with h
            obtain ⟨exp, hsh, hle, hlt⟩ := ih cs cmd (i + 1) a e' ht hrec
            exact ⟨exp, h ▸ hsh, by omega, by omega⟩
          · rw [hrec] at herr
            exact absurd herr (by simp)
      | Trigger tr cs =>
        dsimp only at herr
        rcases Nat.eq_zero_or_pos t with rfl | ht
        · rw [if_pos rfl] at herr
          exact absurd herr (by simp)
        · rw [if_neg (by omega)] at herr
          rcases hrec : pushGo t cs cmd (i + 1) a with e' | cs'
          · rw [hrec] at herr
            dsimp only at herr
            injection herr with h
            obtain ⟨exp, hsh, hle, hlt⟩ := ih cs cmd (i + 1) a e' ht hrec
            exact ⟨exp, h ▸ hsh, by omega, by omega⟩
          · rw [hrec] at herr
            exact absurd herr (by simp)
      | Other k r =>
        dsimp only at herr
        injection herr with h
        exact ⟨i, h.symm, le_refl i, by omega⟩

/-- C7: the indentation of a pushed command must fit the current rightmost
chain of open containers exactly, with no depth skipped: pushable depths
are downward closed (if depth `d+1` is accepted then so is `d`), every
rejection is an `InvalidIndentation(expected, actual)` whose `expected`
depth is strictly below the offending `actual` indentation, and in
particular a command indented 2 right after a depth-1 command that is not
a Loop/Trigger fails with `InvalidIndentation(1, 2)` — citing expected
depth 1, not 2. -/
theorem C7_indentation_invariant :
    (∀ (obj : Object) (cmd cmd' : Command) (d : Nat), 2 ≤ d →
      (tryPushCmd obj cmd (d + 1)).isOk = true → (tryPushCmd obj cmd' d).isOk = true) ∧
    (∀ (obj : Object) (cmd : Command) (d exp actual : Nat), 1 ≤ d →
      tryPushCmd obj cmd d = .error (.InvalidIndentation exp actual) →
      exp < d ∧ actual = d) ∧
    tryPushCmd ⟨"0", "0", ⟨0, 0⟩, .Sprite "f", [.Other "F" ",0,0,0,1"]⟩
      (.Other "M" ",0,0,100,200") 2 = .error (.InvalidIndentation 1 2) := by
  refine ⟨?_, ?_, ?_⟩
  · intro obj cmd cmd' d hd hok
    unfold tryPushCmd at hok ⊢
    rw [if_neg (by omega)] at hok
    rw [if_neg (by omega)]
    have hstep : d + 1 - 1 = (d - 1) + 1 := by omega
    rw [hstep] at hok
    rcases hrec : pushGo ((d - 1) + 1) obj.commands cmd 1 (d + 1) with e | cs
    · rw [hrec] at hok
      dsimp only at hok
      rw [except_isOk_error] at hok
      exact Bool.noConfusion hok
    · have hr := pushGo_down (d - 1) obj.commands cmd cmd' 1 (d + 1) d (by omega)
        (by rw [hrec]; rfl)
      rcases hrec' : pushGo (d - 1) obj.commands cmd' 1 d with e | cs'
      · rw [hrec'] at hr
        rw [except_isOk_error] at hr
        exact Bool.noConfusion hr
      · rfl
  · intro obj cmd d exp actual hd herr
    unfold tryPushCmd at herr
    rcases Nat.eq_or_lt_of_le hd with h1 | h2
    · rw [if_pos h1.symm] at herr
      exact absurd herr (by simp)
    · rw [if_neg (by omega)] at herr
      rcases hrec : pushGo (d - 1) obj.commands cmd 1 d with e' | cs
      · rw [hrec] at herr
        dsimp only at herr
        injection herr with h
        obtain ⟨exp', hsh, hle, hlt⟩ := pushGo_error_shape (d - 1) obj.commands cmd 1 d e'
          (by omega) hrec
        subst h
        injection hsh with ha hb
        omega
      · rw [hrec] at herr
        exact absurd herr (by simp)
  · rfl

/-- C7 witness: a two-deep rightmost Loop chain accepts depth 3, hence also
depth 2 by the theorem; a rejection at depth 3 over a single leaf command
has expected depth 1 below the actual 3; and the concrete
expected-1-not-2 scenario holds. -/
theorem C7_indentation_invariant_witness :
    ((tryPushCmd ⟨"0", "0", ⟨0, 0⟩, .Sprite "f", [.Loop 0 3 [.Loop 1 2 []]]⟩
        (.Other "F" ",0,0,0,1") 3).isOk = true ∧
      (tryPushCmd ⟨"0", "0", ⟨0, 0⟩, .Sprite "f", [.Loop 0 3 [.Loop 1 2 []]]⟩
        (.Other "R" ",0,0,0,1") 2).isOk = true) ∧
    ((1 : Nat) < 3 ∧ (3 : Nat) = 3) ∧
    tryPushCmd ⟨"0", "0", ⟨0, 0⟩, .Sprite "f", [.Other "F" ",0,0,0,1"]⟩
      (.Other "M" ",0,0,100,200") 2 = .error (.InvalidIndentation 1 2) :=
  ⟨⟨rfl, C7_indentation_invariant.1 ⟨"0", "0", ⟨0, 0⟩, .Sprite "f", [.Loop 0 3 [.Loop 1 2 []]]⟩
      (.Other "F" ",0,0,0,1") (.Other "R" ",0,0,0,1") 2 (by decide) rfl⟩,
    C7_indentation_invariant.2.1 ⟨"0", "0", ⟨0, 0⟩, .Sprite "f", [.Other "Z" ",1"]⟩
      (.Other "F" ",0,0,0,1") 3 1 3 (by decide) rfl,
    C7_indentation_invariant.2.2⟩

/-! ## Claim C8 -/

theorem innerLoop_succ (fuel : Nat) (c : Command) (rest : List Command) (ind : Nat)
    (stack : List (List Command × Nat)) (acc : List String) :
    innerLoop (fuel + 1) (c :: rest) ind stack acc =
      if c.children.isEmpty then
        if rest.isEmpty then
          match stack with
          | [] => acc ++ [indentStr ind ++ cmdDisplay c]
          | (prev, pind) :: stack' =>
            innerLoop fuel prev pind stack' (acc ++ [indentStr ind ++ cmdDisplay c])
        else innerLoop fuel rest ind stack (acc ++ [indentStr ind ++ cmdDisplay c])
      else
        innerLoop fuel c.children (ind + 1)
          (if rest.isEmpty then stack else (rest, ind) :: stack)
          (acc ++ [indentStr ind ++ cmdDisplay c]) := rfl

theorem innerLoop_flatten : ∀ (fuel : Nat) (cur : List Command) (ind : Nat)
    (stack : List (List Command × Nat)) (acc : List String),
    cur ≠ [] → (∀ p ∈ stack, p.1 ≠ ([] : List Command)) →
    cmdsSize cur + stackSize stack ≤ fuel →
    innerLoop fuel cur ind stack acc =
      acc ++ flattenCmdsSpec cur ind ++ flattenStack stack := by
  intro fuel
  induction fuel with
  | zero =>
    intro cur ind stack acc hcur _ hfuel
    exfalso
    rcases cur with _ | ⟨c, rest⟩
    · exact hcur rfl
    · cases c <;> simp only [cmdsSize] at hfuel <;> omega
  | succ n ih =>
    intro cur ind stack acc hcur hstack hfuel
    rcases cur with _ | ⟨c, rest⟩
    · exact absurd rfl hcur
    · cases c with
      | Loop st lc cs =>
        rw [innerLoop_succ]
        rcases cs with _ | ⟨c0, cs'⟩
        · rw [if_pos (by simp [Command.children])]
          rcases rest with _ | ⟨r0, rs⟩
          · rw [if_pos (by simp [Command.children])]
            rcases stack with _ | ⟨⟨prev, pind⟩, stack'⟩
            · dsimp only
              simp [flattenCmdsSpec, flattenStack]
            · dsimp only
              have hrec := ih prev pind stack'
                (acc ++ [indentStr ind ++ cmdDisplay (Command.Loop st lc [])])
                (hstack (prev, pind) (List.mem_cons_self _ _))
                (fun p hp => hstack p (List.mem_cons_of_mem _ hp))
                (by simp only [cmdsSize, stackSize] at hfuel ⊢; omega)
              rw [hrec]
              simp [flattenCmdsSpec, flattenStack, List.append_assoc]
          · rw [if_neg (by simp)]
            have hrec := ih (r0 :: rs) ind stack
              (acc ++ [indentStr ind ++ cmdDisplay (Command.Loop st lc [])])
              (by simp) hstack
              (by simp only [cmdsSize] at hfuel ⊢; omega)
            rw [hrec]
            simp [flattenCmdsSpec, List.append_assoc]
        · rw [if_neg (by simp [Command.children])]
          dsimp only [Command.children]
          rcases rest with _ | ⟨r0, rs⟩
          · rw [if_pos (by simp [Command.children])]
            have hrec := ih (c0 :: cs') (ind + 1) stack
              (acc ++ [indentStr ind ++ cmdDisplay (Command.Loop st lc (c0 :: cs'))])
              (by simp) hstack
              (by simp only [cmdsSize] at hfuel ⊢; omega)
            rw [hrec]
            simp [flattenCmdsSpec, flattenStack, List.append_assoc]
          · rw [if_neg (by simp)]
            have hrec := ih (c0 :: cs') (ind + 1) ((r0 :: rs, ind) :: stack)
              (acc ++ [indentStr ind ++ cmdDisplay (Command.Loop st lc (c0 :: cs'))])
              (by simp)
              (by
                intro p hp
                rcases List.mem_cons.mp hp with rfl | hp2
                · simp
                · exact hstack p hp2)
              (by simp only [cmdsSize, stackSize] at hfuel ⊢; omega)
            rw [hrec]
            simp [flattenCmdsSpec, flattenStack, List.append_assoc]
      | Trigger tr cs =>
        rw [innerLoop_succ]
        rcases cs with _ | ⟨c0, cs'⟩
        · rw [if_pos (by simp [Command.children])]
          rcases rest with _ | ⟨r0, rs⟩
          · rw [if_pos (by simp [Command.children])]
            rcases stack with _ | ⟨⟨prev, pind⟩, stack'⟩
            · dsimp only
              simp [flattenCmdsSpec, flattenStack]
            · dsimp only
              have hrec := ih prev pind stack'
                (acc ++ [indentStr ind ++ cmdDisplay (Command.Trigger tr [])])
                (hstack (prev, pind) (List.mem_cons_self _ _))
                (fun p hp => hstack p (List.mem_cons_of_mem _ hp))
                (by simp only [cmdsSize, stackSize] at hfuel ⊢; omega)
              rw [hrec]
              simp [flattenCmdsSpec, flattenStack, List.append_assoc]
          · rw [if_neg (by simp)]
            have hrec := ih (r0 :: rs) ind stack
              (acc ++ [indentStr ind ++ cmdDisplay (Command.Trigger tr [])])
              (by simp) hstack
              (by simp only [cmdsSize] at hfuel ⊢; omega)
            rw [hrec]
            simp [flattenCmdsSpec, List.append_assoc]
        · rw [if_neg (by simp [Command.children])]
          dsimp only [Command.children]
          rcases rest with _ | ⟨r0, rs⟩
          · rw [if_pos (by simp [Command.children])]
            have hrec := ih (c0 :: cs') (ind + 1) stack
              (acc ++ [indentStr ind ++ cmdDisplay (Command.Trigger tr (c0 :: cs'))])
              (by simp) hstack
              (by simp only [cmdsSize] at hfuel ⊢; omega)
            rw [hrec]
            simp [flattenCmdsSpec, flattenStack, List.append_assoc]
          · rw [if_neg (by simp)]
            have hrec := ih (c0 :: cs') (ind + 1) ((r0 :: rs, ind) :: stack)
              (acc ++ [indentStr ind ++ cmdDisplay (Command.Trigger tr (c0 :: cs'))])
              (by simp)
              (by
                intro p hp
                rcases List.mem_cons.mp hp with rfl | hp2
                · simp
                · exact hstack p hp2)
              (by simp only [cmdsSize, stackSize] at hfuel ⊢; omega)
            rw [hrec]
            simp [flattenCmdsSpec, flattenStack, List.append_assoc]
      | Other k r =>
        rw [innerLoop_succ]
        rw [if_pos (by simp [Command.children])]
        rcases rest with _ | ⟨r0, rs⟩
        · rw [if_pos (by simp [Command.children])]
          rcases stack with _ | ⟨⟨prev, pind⟩, stack'⟩
          · dsimp only
            simp [flattenCmdsSpec, flattenStack]
          · dsimp only
            have hrec := ih prev pind stack'
              (acc ++ [indentStr ind ++ cmdDisplay (Command.Other k r)])
              (hstack (prev, pind) (List.mem_cons_self _ _))
              (fun p hp => hstack p (List.mem_cons_of_mem _ hp))
              (by simp only [cmdsSize, stackSize] at hfuel ⊢; omega)
            rw [hrec]
            simp [flattenCmdsSpec, flattenStack, List.append_assoc]
        · rw [if_neg (by simp)]
          have hrec := ih (r0 :: rs) ind stack
            (acc ++ [indentStr ind ++ cmdDisplay (Command.Other k r)])
            (by simp) hstack
            (by simp only [cmdsSize] at hfuel ⊢; omega)
          rw [hrec]
          simp [flattenCmdsSpec, List.append_assoc]

theorem goCmds_cons (c : Command) (cs : List Command) (acc : List String) :
    goCmds (c :: cs) acc =
      goCmds cs (if c.children.isEmpty then acc ++ [indentStr 1 ++ cmdDisplay c]
        else innerLoop (cmdsSize c.children) c.children 2 []
          (acc ++ [indentStr 1 ++ cmdDisplay c])) := rfl

theorem goCmds_flatten : ∀ (cmds : List Command) (acc : List String),
    goCmds cmds acc = acc ++ flattenCmdsSpec cmds 1 := by
  intro cmds
  induction cmds with
  | nil => intro acc; simp [goCmds, flattenCmdsSpec]
  | cons c cs ih =>
    intro acc
    rw [goCmds_cons]
    cases c with
    | Loop st lc ccs =>
      rcases ccs with _ | ⟨c0, cs'⟩
      · rw [if_pos (by simp [Command.children]), ih]
        simp [flattenCmdsSpec, List.append_assoc]
      · rw [if_neg (by simp [Command.children])]
        dsimp only [Command.children]
        rw [innerLoop_flatten (cmdsSize (c0 :: cs')) (c0 :: cs') 2 []
          (acc ++ [indentStr 1 ++ cmdDisplay (Command.Loop st lc (c0 :: cs'))])
          (by simp) (by simp) (by simp [stackSize])]
        rw [ih]
        simp [flattenCmdsSpec, flattenStack, List.append_assoc]
    | Trigger tr ccs =>
      rcases ccs with _ | ⟨c0, cs'⟩
      · rw [if_pos (by simp [Command.children]), ih]
        simp [flattenCmdsSpec, List.append_assoc]
      · rw [if_neg (by simp [Command.children])]
        dsimp only [Command.children]
        rw [innerLoop_flatten (cmdsSize (c0 :: cs')) (c0 :: cs') 2 []
          (acc ++ [indentStr 1 ++ cmdDisplay (Command.Trigger tr (c0 :: cs'))])
          (by simp) (by simp) (by simp [stackSize])]
        rw [ih]
        simp [flattenCmdsSpec, flattenStack, List.append_assoc]
    | Other k r =>
      rw [if_pos (by simp [Command.children]), ih]
      simp [flattenCmdsSpec, List.append_assoc]

/-- C8: the explicit-stack command flattener of `Event::fmt` writes each
command preceded by exactly one indent character per nesting level — depth
1 for an object's direct commands, one deeper inside each Loop/Trigger
container — i.e. it agrees with the direct recursive rendering
`flattenCmdsSpec`; and a Loop with an empty child list emits only its own
line: the object `Sprite,0,0,f,0,0` holding the single childless command
`L,0,3` serializes to exactly the header plus ` L,0,3`, with no child
lines and no dangling indentation. -/
theorem C8_flattener_indentation :
    (∀ obj : Object,
      Event.toStringD (.Storyboard obj) =
        if obj.commands.isEmpty then objectHeaderStr obj
        else objectHeaderStr obj ++ "\n" ++ joinStrNl (flattenCmdsSpec obj.commands 1)) ∧
    Event.toStringD (.Storyboard ⟨"0", "0", ⟨0, 0⟩, .Sprite "f", [.Loop 0 3 []]⟩)
      = "Sprite,0,0,f,0,0\n L,0,3" := by
  constructor
  · intro obj
    simp only [Event.toStringD]
    rw [goCmds_flatten, List.nil_append]
  · rfl
